import Mathlib

/-!
# zipstream: streaming ZIP reader

A shallow embedding of `types.go`, `little_endian_reader.go`, `append_reader.go`
and `reader.go`, followed by theorems about `ZipStream.Next`, `ZipStream.Read`,
`readLocalFileHeader` and `appendReader.Read`.

Modelling conventions.

* A byte slice is a `List UInt8`; a slice that may be `nil` is an
  `Option (List UInt8)` with `none` for `nil`.  Slices are values: the model
  agrees with the Go code as long as the bytes of a buffer passed to `Read` are
  not overwritten while `z.previous` still points into it (true when every call
  gets a buffer of the same length whose capacity equals its length, and when
  every call gets a fresh buffer).
* An `io.Reader` is a state `σ` with a function `σ → Nat → RdRes σ`: the
  argument is `len(p)`, the result holds the `n` bytes written to `p[0:n]`, the
  error and the reader's next state.  The `io.Reader` contract `n ≤ len(p)` is
  a hypothesis where it is needed.
* A run-time panic of the Go code is the `Outcome.panic` result.
* `int`, `uint16` and `uint32` values are natural numbers; the only place where
  an `int` goes negative is `len(p)-4`, handled where it occurs.
-/

namespace Zipstream

/-! ## types.go -/

def localFileHeaderSignature : Nat := 0x04034b50
def directoryHeaderSignature : Nat := 0x02014b50
def dataDescriptorSignature : Nat := 0x08074b50

structure LocalFileHeader where
  FileHeader : Nat
  Version : Nat
  GeneralBits : Nat
  CMethod : Nat
  ModifiedTime : Nat
  ModifiedDate : Nat
  CRC32 : Nat
  CompressedSize : Nat
  UnCompressedSize : Nat
  FileNameLength : Nat
  ExtrasLength : Nat
  FileName : List UInt8
  Extras : List UInt8
  IsDirectory : Bool
  deriving DecidableEq, Repr

/-! ## Errors, panics and read results -/

/-- Error values.  `EOF` is the sentinel `io.EOF`; `upstream` stands for the error
values of the underlying byte source; every other constructor is one
`fmt.Errorf` call of `reader.go`, which yields a value distinct from all
others.  Where the Go code formats `err.Error()` into the message, the
constructor carries the formatted error. -/
inductive GoError where
  | EOF
  | upstream (code : Nat)
  | signatureShort (expected got : Nat)
  | invalidSignature (sig : Nat)
  | headerRead (cause : GoError)
  | headerShort (expected got : Nat)
  | nameRead (cause : GoError)
  | nameShort (expected got : Nat)
  | extrasRead (cause : GoError)
  | extrasShort (expected got : Nat)
  | invalidRead
  deriving DecidableEq, Repr

/-- Run-time panics: a slice expression `s[low:]` with `low` out of range, an
index expression out of range, and `log.Panicf("unknown compression method: %d")`. -/
inductive GoPanic where
  | sliceBounds (low : Int) (len : Nat)
  | indexOutOfRange (idx : Int) (len : Nat)
  | unknownMethod (method : Nat)
  deriving DecidableEq, Repr

/-- Result of running Go code that may panic. -/
inductive Outcome (α : Type) where
  | ret (a : α)
  | panic (p : GoPanic)
  deriving DecidableEq, Repr

/-- Result of one `Read(p)` call on a reader with state `σ`: the bytes written to
`p[0:n]`, the error, and the reader afterwards. -/
structure RdRes (σ : Type) where
  data : List UInt8
  err : Option GoError
  next : σ
  deriving DecidableEq, Repr

/-! ## encoding/binary and bytes.Reader -/

/-- The function `binary.LittleEndian.Uint16` on a 2-byte buffer. -/
def Uint16 (b : List UInt8) : Nat :=
  (b.getD 0 0).toNat + 256 * (b.getD 1 0).toNat

/-- The function `binary.LittleEndian.Uint32` on a 4-byte buffer. -/
def Uint32 (b : List UInt8) : Nat :=
  (b.getD 0 0).toNat + 256 * (b.getD 1 0).toNat + 65536 * (b.getD 2 0).toNat
    + 16777216 * (b.getD 3 0).toNat

/-- The method `(*bytes.Reader).Read`; the state is the unread part `r.s[r.i:]`. -/
def bytesReaderRead (s : List UInt8) (m : Nat) : RdRes (List UInt8) :=
  if s.length = 0 then ⟨[], some GoError.EOF, s⟩
  else ⟨s.take m, none, s.drop m⟩

/-! ## little_endian_reader.go -/

/-- The method `LittleEndianReader.uint16` over a `bytes.Reader`: a zeroed 2-byte
buffer is filled by one `Read` whose result is ignored, then decoded. -/
def LittleEndianReader.uint16 (l : List UInt8) : Nat × List UInt8 :=
  let r := bytesReaderRead l 2
  (Uint16 (r.data ++ List.replicate (2 - r.data.length) 0), r.next)

/-- The method `LittleEndianReader.uint32` over a `bytes.Reader`. -/
def LittleEndianReader.uint32 (l : List UInt8) : Nat × List UInt8 :=
  let r := bytesReaderRead l 4
  (Uint32 (r.data ++ List.replicate (4 - r.data.length) 0), r.next)

/-! ## append_reader.go -/

/-- What the loop body of `appendReader.Read` does with one reader's result. -/
inductive Visit where
  | done (data : List UInt8) (err : Option GoError)
  | more (filled : List UInt8)
  deriving DecidableEq, Repr

/-- Loop body of `appendReader.Read` after `n, err = r.Read(buff)`: `filled` is
`p[0:dataRead]`.  A non-EOF error returns `0, err`; a full buffer returns
`dataRead, nil`; otherwise the loop goes on to the next reader (by `continue`
when `err == io.EOF`, by reaching the end of the body when `err == nil`). -/
def appendVisit (dataToRead : Nat) (filled data : List UInt8) (err : Option GoError) : Visit :=
  if err ≠ none ∧ err ≠ some GoError.EOF then Visit.done [] err
  else if (filled ++ data).length = dataToRead then Visit.done (filled ++ data) none
  else Visit.more (filled ++ data)

/-- The method `appendReader.Read` for `AppendReader(bytes.NewReader(rem), u)`: the
loop visits the `bytes.Reader` and then the underlying reader, each with a fresh
buffer of the remaining room, and returns `dataRead, io.EOF` after the loop. -/
def appendReader.Read {σ : Type} (rd : σ → Nat → RdRes σ) (rem : List UInt8) (u : σ) (m : Nat) :
    RdRes (List UInt8 × σ) :=
  let r1 := bytesReaderRead rem m
  match appendVisit m [] r1.data r1.err with
  | Visit.done d e => ⟨d, e, (r1.next, u)⟩
  | Visit.more f1 =>
    let r2 := rd u (m - f1.length)
    match appendVisit m f1 r2.data r2.err with
    | Visit.done d e => ⟨d, e, (r1.next, r2.next)⟩
    | Visit.more f2 => ⟨f2, some GoError.EOF, (r1.next, r2.next)⟩

/-! ## reader.go -/

/-- The local variable `reader`: `z.Reader` itself, or
`AppendReader(bytes.NewReader(z.previous), z.Reader)`. -/
inductive Surface (σ : Type) where
  | direct (u : σ)
  | appended (rem : List UInt8) (u : σ)
  deriving DecidableEq, Repr

/-- The underlying reader of a read surface. -/
def Surface.under {σ : Type} : Surface σ → σ
  | Surface.direct u => u
  | Surface.appended _ u => u

/-- One call `reader.Read(buff)` with `len(buff) = m`. -/
def Surface.read {σ : Type} (rd : σ → Nat → RdRes σ) (s : Surface σ) (m : Nat) :
    RdRes (Surface σ) :=
  match s with
  | Surface.direct u =>
    let r := rd u m
    ⟨r.data, r.err, Surface.direct r.next⟩
  | Surface.appended rem u =>
    let r := appendReader.Read rd rem u m
    ⟨r.data, r.err, Surface.appended r.next.1 r.next.2⟩

structure ZipStream (σ : Type) where
  Reader : σ
  previous : Option (List UInt8)
  deriving DecidableEq, Repr

/-- The expression `len(z.previous)`; the length of a nil slice is 0. -/
def lenPrevious (previous : Option (List UInt8)) : Nat :=
  match previous with
  | none => 0
  | some c => c.length

/-- The choice of `reader` at the start of `Next` and `Read`:
`z.previous != nil && len(z.previous) != 0`. -/
def ZipStream.surface {σ : Type} (z : ZipStream σ) : Surface σ :=
  match z.previous with
  | some (b :: bs) => Surface.appended (b :: bs) z.Reader
  | _ => Surface.direct z.Reader

/-- Lines 166-178 of `readLocalFileHeader`: a new header whose fixed-width fields
are decoded one after the other by a `LittleEndianReader` over
`bytes.NewReader(buff)`; the remaining fields keep their zero values. -/
@[irreducible] def decodePreamble (buff : List UInt8) : LocalFileHeader :=
  let (version, l1) := LittleEndianReader.uint16 buff
  let (generalBits, l2) := LittleEndianReader.uint16 l1
  let (cMethod, l3) := LittleEndianReader.uint16 l2
  let (modifiedTime, l4) := LittleEndianReader.uint16 l3
  let (modifiedDate, l5) := LittleEndianReader.uint16 l4
  let (crc32, l6) := LittleEndianReader.uint32 l5
  let (compressedSize, l7) := LittleEndianReader.uint32 l6
  let (unCompressedSize, l8) := LittleEndianReader.uint32 l7
  let (fileNameLength, l9) := LittleEndianReader.uint16 l8
  let (extrasLength, _) := LittleEndianReader.uint16 l9
  { FileHeader := localFileHeaderSignature, Version := version, GeneralBits := generalBits,
    CMethod := cMethod, ModifiedTime := modifiedTime, ModifiedDate := modifiedDate,
    CRC32 := crc32, CompressedSize := compressedSize, UnCompressedSize := unCompressedSize,
    FileNameLength := fileNameLength, ExtrasLength := extrasLength,
    FileName := [], Extras := [], IsDirectory := false }

/-- The method `readLocalFileHeader` over a reader with state `τ`.  The result is
the pair of the returned header and byte count, or the returned error, together
with the reader afterwards; the index expression on an empty `FileName` panics. -/
def readLocalFileHeader {τ : Type} (read : τ → Nat → RdRes τ) (reader : τ) :
    Outcome (Except GoError (LocalFileHeader × Nat) × τ) :=
  let r0 := read reader 26
  match r0.err with
  | some e => Outcome.ret (Except.error (GoError.headerRead e), r0.next)
  | none =>
  if r0.data.length ≠ 26 then
    Outcome.ret (Except.error (GoError.headerShort 26 r0.data.length), r0.next)
  else
  let lfh := decodePreamble r0.data
  let r1 := if lfh.FileNameLength ≠ 0 then read r0.next lfh.FileNameLength
    else ⟨[], none, r0.next⟩
  match r1.err with
  | some e => Outcome.ret (Except.error (GoError.nameRead e), r1.next)
  | none =>
  if lfh.FileNameLength ≠ 0 ∧ r1.data.length ≠ lfh.FileNameLength then
    Outcome.ret (Except.error (GoError.nameShort lfh.FileNameLength r1.data.length), r1.next)
  else
  let r2 := if lfh.ExtrasLength ≠ 0 then read r1.next lfh.ExtrasLength
    else ⟨[], none, r1.next⟩
  match r2.err with
  | some e => Outcome.ret (Except.error (GoError.extrasRead e), r2.next)
  | none =>
  if lfh.ExtrasLength ≠ 0 ∧ r2.data.length ≠ lfh.ExtrasLength then
    Outcome.ret (Except.error (GoError.extrasShort lfh.ExtrasLength r2.data.length), r2.next)
  else
  match r1.data.getLast? with
  | none => Outcome.panic (GoPanic.indexOutOfRange (-1) 0)
  | some last =>
    Outcome.ret (Except.ok
      ({ lfh with FileName := r1.data, Extras := r2.data, IsDirectory := decide (last = 47) },
       26 + r1.data.length + r2.data.length), r2.next)

/-- The `io.Reader` returned by `Next`: `z` itself for method 0,
`flate.NewReader(z)` for method 8. -/
inductive PayloadStream where
  | stored
  | deflate
  deriving DecidableEq, Repr

/-- The three values returned by `Next`. -/
structure NextResult where
  header : Option LocalFileHeader
  stream : Option PayloadStream
  err : Option GoError
  deriving DecidableEq, Repr

/-- Lines 65-69 of `Next`, the update of `z.previous` after the header was read:
`nil` when `tdr >= len(z.previous)`, else `z.previous[totalDataRead:]`, a slice
expression that panics when `totalDataRead > len(z.previous)`. -/
def trimPrevious (previous : Option (List UInt8)) (tdr totalDataRead : Nat) :
    Outcome (Option (List UInt8)) :=
  if tdr ≥ lenPrevious previous then Outcome.ret none
  else if totalDataRead > lenPrevious previous then
    Outcome.panic (GoPanic.sliceBounds totalDataRead (lenPrevious previous))
  else Outcome.ret (previous.map (List.drop totalDataRead))

/-- The method `ZipStream.Next`. -/
def ZipStream.Next {σ : Type} (rd : σ → Nat → RdRes σ) (z : ZipStream σ) :
    Outcome (NextResult × ZipStream σ) :=
  let r := z.surface.read rd 4
  let z1 : ZipStream σ := ⟨r.next.under, z.previous⟩
  if r.err ≠ none ∧ r.err ≠ some GoError.EOF then
    Outcome.ret (⟨none, none, r.err⟩, z1)
  else if r.data.length ≠ 4 then
    Outcome.ret (⟨none, none, some (GoError.signatureShort 4 r.data.length)⟩, z1)
  else if Uint32 r.data = directoryHeaderSignature then
    Outcome.ret (⟨none, none, some GoError.EOF⟩, z1)
  else if Uint32 r.data = localFileHeaderSignature then
    match readLocalFileHeader (Surface.read rd) r.next with
    | Outcome.panic q => Outcome.panic q
    | Outcome.ret (Except.error e, s) => Outcome.ret (⟨none, none, some e⟩, ⟨s.under, z.previous⟩)
    | Outcome.ret (Except.ok (lfh, tdr), s) =>
      match trimPrevious z.previous tdr (r.data.length + tdr) with
      | Outcome.panic q => Outcome.panic q
      | Outcome.ret previous =>
        match lfh.CMethod with
        | 8 => Outcome.ret (⟨some lfh, some PayloadStream.deflate, none⟩, ⟨s.under, previous⟩)
        | 0 => Outcome.ret (⟨some lfh, some PayloadStream.stored, none⟩, ⟨s.under, previous⟩)
        | method => Outcome.panic (GoPanic.unknownMethod method)
  else
    Outcome.ret (⟨none, none, some (GoError.invalidSignature (Uint32 r.data))⟩, z1)

/-- The scan loop `for i := 0; i < len(p)-4; i++` of `Read`, started at index `i`
with `steps` iterations left: the first index whose window `p[i:i+4]` decodes
to an accepted signature. -/
def scan (ok : Nat → Bool) (p : List UInt8) : Nat → Nat → Option Nat
  | _, 0 => none
  | i, steps + 1 =>
    if ok (Uint32 ((p.drop i).take 4)) then some i else scan ok p (i + 1) steps

/-- The test of the outer scan of `Read`: any of the three signatures. -/
def isBoundary (v : Nat) : Bool :=
  v == localFileHeaderSignature || v == directoryHeaderSignature || v == dataDescriptorSignature

/-- The test of the scan after a data descriptor: the two header signatures. -/
def isHeader (v : Nat) : Bool :=
  v == localFileHeaderSignature || v == directoryHeaderSignature

/-- The values `n, err` returned by `Read` (with the bytes of `p[0:n]`) and the
stream afterwards. -/
structure ReadResult (σ : Type) where
  data : List UInt8
  err : Option GoError
  z : ZipStream σ
  deriving DecidableEq, Repr

/-- The statement `if n >= len(z.previous) { z.previous = nil }`. -/
def clearPrevious (previous : Option (List UInt8)) (n : Nat) : Option (List UInt8) :=
  if n ≥ lenPrevious previous then none else previous

/-- The carry update `z.previous = p[k:]` when `z.previous == nil`, else
`z.previous = append(p[k:], z.previous[lo:]...)`. -/
def carry (previous : Option (List UInt8)) (p : List UInt8) (k lo : Nat) : List UInt8 :=
  match previous with
  | none => p.drop k
  | some c => p.drop k ++ c.drop lo

/-- The method `ZipStream.Read` called with a buffer of length `m`. -/
def ZipStream.Read {σ : Type} (rd : σ → Nat → RdRes σ) (z : ZipStream σ) (m : Nat) :
    Outcome (ReadResult σ) :=
  let r := z.surface.read rd m
  let p := r.data
  let previous := clearPrevious z.previous p.length
  match scan isBoundary p 0 (p.length - 4) with
  | some i =>
    let discardDataDescriptor := Uint32 ((p.drop i).take 4) == dataDescriptorSignature
    let previous := carry previous p i p.length
    if discardDataDescriptor then
      let z2 : ZipStream σ := ⟨r.next.under, some previous⟩
      let r2 := z2.surface.read rd 40
      let buff := r2.data
      let previous := clearPrevious z2.previous buff.length
      match scan isHeader buff 0 (buff.length - 4) with
      | some j =>
        Outcome.ret ⟨p.take i, some GoError.EOF,
          ⟨r2.next.under, some (carry previous buff j buff.length)⟩⟩
      | none => Outcome.ret ⟨[], some GoError.invalidRead, ⟨r2.next.under, previous⟩⟩
    else
      Outcome.ret ⟨p.take i, some GoError.EOF, ⟨r.next.under, some previous⟩⟩
  | none =>
    if p.length < 4 then Outcome.panic (GoPanic.sliceBounds ((p.length : Int) - 4) p.length)
    else
      Outcome.ret ⟨p.take (p.length - 4), none,
        ⟨r.next.under, some (carry previous p (p.length - 4) (p.length - 4))⟩⟩

/-! ## Byte sources and callers -/

/-- An underlying reader that holds the rest of the archive in memory and hands
out as many bytes as fit, like `bytes.Reader`. -/
def sliceRead (s : List UInt8) (m : Nat) : RdRes (List UInt8) := bytesReaderRead s m

/-- An underlying reader that follows a script: `Except.ok c` is a chunk of bytes,
of which one `Read` returns as many as fit and never bytes of a later chunk;
`Except.error e` makes one `Read` return `0, e`; with the script used up every
`Read` returns `0, io.EOF`. -/
def scriptRead (s : List (Except GoError (List UInt8))) (m : Nat) :
    RdRes (List (Except GoError (List UInt8))) :=
  match s with
  | [] => ⟨[], some GoError.EOF, []⟩
  | Except.error e :: rest => ⟨[], some e, rest⟩
  | Except.ok c :: rest => ⟨c.take m, none, if c.length ≤ m then rest else Except.ok (c.drop m) :: rest⟩

/-- How a caller's read loop over one entry ended. -/
inductive Drained (σ : Type) where
  | eof (bytes : List UInt8) (z : ZipStream σ)
  | failed (bytes : List UInt8) (e : GoError) (z : ZipStream σ)
  | panicked (q : GoPanic)
  | unfinished (bytes : List UInt8) (z : ZipStream σ)
  deriving DecidableEq, Repr

/-- A caller that calls `z.Read` with a buffer of length `m` until a call returns an
error, at most `fuel` times, and appends the bytes returned by each call, the
last one included, to `acc`. -/
def readEntry {σ : Type} (rd : σ → Nat → RdRes σ) (m : Nat) :
    Nat → ZipStream σ → List UInt8 → Drained σ
  | 0, z, acc => Drained.unfinished acc z
  | fuel + 1, z, acc =>
    match z.Read rd m with
    | Outcome.panic q => Drained.panicked q
    | Outcome.ret ⟨data, some GoError.EOF, z1⟩ => Drained.eof (acc ++ data) z1
    | Outcome.ret ⟨data, some e, z1⟩ => Drained.failed (acc ++ data) e z1
    | Outcome.ret ⟨data, none, z1⟩ => readEntry rd m fuel z1 (acc ++ data)

/-! ## In-memory streams -/

/-- The bytes of the carry buffer that a read surface has not handed out yet. -/
def Surface.carried {σ : Type} : Surface σ → List UInt8
  | Surface.direct _ => []
  | Surface.appended rem _ => rem

/-- The bytes a read surface over an in-memory stream still has to deliver: the
unread carry bytes, then the rest of the stream. -/
def Surface.content (s : Surface (List UInt8)) : List UInt8 := s.carried ++ s.under

/-- The bytes a stream over an in-memory archive still has to deliver: the carry
buffer, then the rest of the archive. -/
def ZipStream.content (z : ZipStream (List UInt8)) : List UInt8 :=
  z.previous.getD [] ++ z.Reader

/-- The value `binary.LittleEndian.Uint32(p[i:i+4])`. -/
def window (p : List UInt8) (i : Nat) : Nat := Uint32 ((p.drop i).take 4)

/-- The header that `readLocalFileHeader` builds from the preamble `b`, the name and
the extras. -/
def headerOf (b name extras : List UInt8) : LocalFileHeader :=
  { FileHeader := localFileHeaderSignature,
    Version := Uint16 ((b.drop 0).take 2),
    GeneralBits := Uint16 ((b.drop 2).take 2),
    CMethod := Uint16 ((b.drop 4).take 2),
    ModifiedTime := Uint16 ((b.drop 6).take 2),
    ModifiedDate := Uint16 ((b.drop 8).take 2),
    CRC32 := Uint32 ((b.drop 10).take 4),
    CompressedSize := Uint32 ((b.drop 14).take 4),
    UnCompressedSize := Uint32 ((b.drop 18).take 4),
    FileNameLength := Uint16 ((b.drop 22).take 2),
    ExtrasLength := Uint16 ((b.drop 24).take 2),
    FileName := name, Extras := extras,
    IsDirectory := decide (name.getLast? = some 47) }

/-! ## Sample bytes -/

/-- The bytes of the Local File Header signature `0x04034b50`, little-endian. -/
def lfhBytes : List UInt8 := [0x50, 0x4b, 0x03, 0x04]

/-- The bytes of the Central Directory Header signature `0x02014b50`. -/
def cdhBytes : List UInt8 := [0x50, 0x4b, 0x01, 0x02]

/-- The bytes of the Data Descriptor signature `0x08074b50`. -/
def ddBytes : List UInt8 := [0x50, 0x4b, 0x07, 0x08]

/-- A 26-byte preamble with version 20, the given compression method, name length
and extras length (each below 256), and every other field zero. -/
def samplePreamble (method nameLen extrasLen : UInt8) : List UInt8 :=
  [20, 0, 0, 0, method, 0, 0, 0, 0, 0, 0, 0, 0, 0, 0, 0, 0, 0, 0, 0, 0, 0, nameLen, 0,
    extrasLen, 0]

/-! ## Archives of stored entries and their callers -/

/-- One stored entry of an archive as written: the 26-byte preamble of its local file
header, the name, the extras and the payload. -/
structure Entry where
  preamble : List UInt8
  name : List UInt8
  extras : List UInt8
  payload : List UInt8
  deriving DecidableEq, Repr

/-- The bytes of an archive: each entry's signature, preamble, name, extras and
payload in order, then the bytes `tl` that follow the last entry. -/
def archiveBytes : List Entry → List UInt8 → List UInt8
  | [], tl => tl
  | e :: es, tl =>
    lfhBytes ++ (e.preamble ++ (e.name ++ (e.extras ++ (e.payload ++ archiveBytes es tl))))

/-- The byte count `tdr` that `readLocalFileHeader` reports for an entry. -/
def Entry.headerLength (e : Entry) : Nat := 26 + e.name.length + e.extras.length

/-- A well-formed stored entry: a 26-byte preamble with method 0 whose length fields
are the lengths of a non-empty name and of the extras. -/
def Entry.wellFormed (e : Entry) : Prop :=
  e.preamble.length = 26 ∧ e.name.length = Uint16 ((e.preamble.drop 22).take 2) ∧
    1 ≤ e.name.length ∧ e.extras.length = Uint16 ((e.preamble.drop 24).take 2) ∧
    Uint16 ((e.preamble.drop 4).take 2) = 0

/-- No Local File Header, Central Directory Header or Data Descriptor signature
begins inside the payload `P` when the bytes `F` follow it. -/
def noBoundaryIn (P F : List UInt8) : Prop :=
  ∀ j, j < P.length → isBoundary (window (P ++ F) j) = false

/-- The conditions on an archive read with a buffer of length `m`, where `L` is the
length of the carry buffer when `Next` is called for the first entry: every
entry is well formed, no signature begins inside a payload, and the carry buffer
that the read loop of one entry leaves (of `m - len(payload) % (m - 4)` bytes,
or all remaining bytes if fewer) is not 1 to 3 bytes short of the next entry's
signature and header. -/
def entriesOk (m : Nat) : Nat → List Entry → List UInt8 → Prop
  | _, [], _ => True
  | L, e :: es, tl =>
    e.wellFormed ∧ (L ≤ e.headerLength ∨ 4 + e.headerLength ≤ L) ∧
      noBoundaryIn e.payload (archiveBytes es tl) ∧
      entriesOk m (min (m - e.payload.length % (m - 4)) (archiveBytes es tl).length) es tl

/-- How a caller's walk over an archive ended. -/
inductive ArchiveEnd where
  | endOfArchive
  | failed (e : GoError)
  | panicked (q : GoPanic)
  | unfinished
  deriving DecidableEq, Repr

/-- A caller that alternates `Next` with the read loop `readEntry` (buffer length
`m`, at most `fuel` reads per entry) for at most `n` calls of `Next`, and
collects each header with the bytes read for it, until `Next` returns an error;
`io.EOF` from `Next` is the end of the archive.  Only stored entries are read. -/
def readArchive {σ : Type} (rd : σ → Nat → RdRes σ) (m fuel : Nat) :
    Nat → ZipStream σ → List (LocalFileHeader × List UInt8) →
      List (LocalFileHeader × List UInt8) × ArchiveEnd
  | 0, _, acc => (acc, ArchiveEnd.unfinished)
  | n + 1, z, acc =>
    match z.Next rd with
    | Outcome.panic q => (acc, ArchiveEnd.panicked q)
    | Outcome.ret (res, z1) =>
      match res.err, res.header, res.stream with
      | some GoError.EOF, _, _ => (acc, ArchiveEnd.endOfArchive)
      | some e, _, _ => (acc, ArchiveEnd.failed e)
      | none, some lfh, some PayloadStream.stored =>
        match readEntry rd m fuel z1 [] with
        | Drained.eof bytes z2 => readArchive rd m fuel n z2 (acc ++ [(lfh, bytes)])
        | Drained.failed _ e _ => (acc, ArchiveEnd.failed e)
        | Drained.panicked q => (acc, ArchiveEnd.panicked q)
        | Drained.unfinished _ _ => (acc, ArchiveEnd.unfinished)
      | none, _, _ => (acc, ArchiveEnd.unfinished)

/-- The stored entry `a` with the payload `hello`. -/
def sampleEntryA : Entry := ⟨samplePreamble 0 1 0, [97], [], [104, 101, 108, 108, 111]⟩

/-- The stored entry `b` with the payload `world`. -/
def sampleEntryB : Entry := ⟨samplePreamble 0 1 0, [98], [], [119, 111, 114, 108, 100]⟩

/-- A stored entry `a` whose payload begins with the Local File Header signature. -/
def sampleEntrySig : Entry := ⟨samplePreamble 0 1 0, [97], [], lfhBytes ++ [1]⟩

/-! ## Steps of `Read` and repeated `Next` -/

/-- The carry buffer that `Read` holds when it starts to skip a data descriptor found
at offset `i` of the pulled bytes. -/
def descriptorCarry {σ : Type} (rd : σ → Nat → RdRes σ) (z : ZipStream σ) (m i : Nat) :
    List UInt8 :=
  carry (clearPrevious z.previous (z.surface.read rd m).data.length) (z.surface.read rd m).data i
    (z.surface.read rd m).data.length

/-- The 40-byte read that `Read` makes to skip a data descriptor found at offset `i`
of the pulled bytes. -/
def descriptorWindow {σ : Type} (rd : σ → Nat → RdRes σ) (z : ZipStream σ) (m i : Nat) :
    RdRes (Surface σ) :=
  (⟨(z.surface.read rd m).next.under, some (descriptorCarry rd z m i)⟩ :
    ZipStream σ).surface.read rd 40

/-- A caller that calls `z.Next` and, whatever it returned, calls it again, `n` more
times in all: the result of the last call, or the first panic. -/
def nextAfter {σ : Type} (rd : σ → Nat → RdRes σ) :
    Nat → ZipStream σ → Outcome (NextResult × ZipStream σ)
  | 0, z => z.Next rd
  | n + 1, z =>
    match z.Next rd with
    | Outcome.panic q => Outcome.panic q
    | Outcome.ret (_, z1) => nextAfter rd n z1

/-! ## Little-endian decoding of the preamble -/

theorem list_length_26 (b : List UInt8) (hb : b.length = 26) :
    ∃ b0 b1 b2 b3 b4 b5 b6 b7 b8 b9 b10 b11 b12 b13 b14 b15 b16 b17 b18 b19 b20 b21 b22 b23 b24
      b25, b = [b0, b1, b2, b3, b4, b5, b6, b7, b8, b9, b10, b11, b12, b13, b14, b15, b16, b17,
        b18, b19, b20, b21, b22, b23, b24, b25] := by
  match b, hb with
  | [b0, b1, b2, b3, b4, b5, b6, b7, b8, b9, b10, b11, b12, b13, b14, b15, b16, b17, b18,
        b19, b20, b21, b22, b23, b24, b25], _ =>
    exact ⟨_, _, _, _, _, _, _, _, _, _, _, _, _, _, _, _, _, _, _, _, _, _, _, _, _, _, rfl⟩

theorem uint16_cons (b0 b1 : UInt8) (rest : List UInt8) :
    LittleEndianReader.uint16 (b0 :: b1 :: rest) = (Uint16 [b0, b1], rest) := by
  simp [LittleEndianReader.uint16, bytesReaderRead]

theorem uint32_cons (b0 b1 b2 b3 : UInt8) (rest : List UInt8) :
    LittleEndianReader.uint32 (b0 :: b1 :: b2 :: b3 :: rest) = (Uint32 [b0, b1, b2, b3], rest) := by
  simp [LittleEndianReader.uint32, bytesReaderRead]

/-- Field by field, the header decoded from a 26-byte preamble holds the
little-endian values at the offsets of the ZIP local file header layout. -/
theorem decodePreamble_eq (b : List UInt8) (hb : b.length = 26) :
    decodePreamble b =
      { FileHeader := localFileHeaderSignature,
        Version := Uint16 ((b.drop 0).take 2),
        GeneralBits := Uint16 ((b.drop 2).take 2),
        CMethod := Uint16 ((b.drop 4).take 2),
        ModifiedTime := Uint16 ((b.drop 6).take 2),
        ModifiedDate := Uint16 ((b.drop 8).take 2),
        CRC32 := Uint32 ((b.drop 10).take 4),
        CompressedSize := Uint32 ((b.drop 14).take 4),
        UnCompressedSize := Uint32 ((b.drop 18).take 4),
        FileNameLength := Uint16 ((b.drop 22).take 2),
        ExtrasLength := Uint16 ((b.drop 24).take 2),
        FileName := [], Extras := [], IsDirectory := false } := by
  obtain ⟨b0, b1, b2, b3, b4, b5, b6, b7, b8, b9, b10, b11, b12, b13, b14, b15, b16, b17, b18,
    b19, b20, b21, b22, b23, b24, b25, rfl⟩ := list_length_26 b hb
  simp only [decodePreamble, uint16_cons, uint32_cons, List.drop, List.take]

/-! ## The header parser -/

/-- The header parser on a reader that delivers the preamble, a non-empty name and the
extras in full: the header `headerOf b name extras` and the byte count. -/
theorem readLocalFileHeader_headerOf {τ : Type} (read : τ → Nat → RdRes τ)
    (reader s1 s2 s3 : τ) (b name extras : List UInt8) (hb : b.length = 26)
    (hname : name.length = Uint16 ((b.drop 22).take 2)) (hpos : 1 ≤ name.length)
    (hextras : extras.length = Uint16 ((b.drop 24).take 2))
    (h0 : read reader 26 = ⟨b, none, s1⟩)
    (h1 : read s1 name.length = ⟨name, none, s2⟩)
    (h2 : if extras.length = 0 then s3 = s2 else read s2 extras.length = ⟨extras, none, s3⟩) :
    readLocalFileHeader read reader =
      Outcome.ret (Except.ok (headerOf b name extras, 26 + name.length + extras.length), s3) := by
  unfold headerOf
  have hne : name ≠ [] := by intro h; simp [h] at hpos
  obtain ⟨last, hlast⟩ : ∃ x, name.getLast? = some x := by
    cases hl : name.getLast? with
    | none => simp [List.getLast?_eq_none_iff] at hl; exact absurd hl hne
    | some x => exact ⟨x, rfl⟩
  have hnl : (decodePreamble b).FileNameLength = name.length := by
    rw [decodePreamble_eq b hb]
    exact hname.symm
  have hel : (decodePreamble b).ExtrasLength = extras.length := by
    rw [decodePreamble_eq b hb]
    exact hextras.symm
  have hn0 : name.length ≠ 0 := by omega
  unfold readLocalFileHeader
  rw [h0]
  dsimp only
  rw [hnl, hel, if_neg (by simp [hb]), if_pos hn0, h1]
  dsimp only
  rw [if_neg (by simp)]
  by_cases he : extras.length = 0
  · have hnil : extras = [] := List.length_eq_zero.mp he
    rw [if_pos he] at h2
    rw [if_neg (by simp [he])]
    dsimp only
    rw [if_neg (by simp [he]), hlast]
    dsimp only
    rw [decodePreamble_eq b hb, h2, hnil]
    simp
    exact ⟨hname, he.symm.trans hextras⟩
  · rw [if_neg he] at h2
    rw [if_pos he, h2]
    dsimp only
    rw [if_neg (by simp), hlast]
    dsimp only
    rw [decodePreamble_eq b hb]
    simp
    exact ⟨hname, hextras⟩

/-- C4: when the read surface delivers the 26-byte preamble `b`, then the
`nameLen >= 1` name bytes and the `extrasLen` extra bytes in full (each read
returning all requested bytes and a nil error), `readLocalFileHeader` returns
the header whose fixed-width fields are the little-endian values of `b` at
offsets 0, 2, 4, 6, 8 (16 bit), 10, 14, 18 (32 bit), 22 and 24 (16 bit), whose
`FileName` and `Extras` are the bytes that follow, and the byte count
`26 + nameLen + extrasLen`. -/
theorem readLocalFileHeader_decodes_fields {τ : Type} (read : τ → Nat → RdRes τ)
    (reader s1 s2 s3 : τ) (b name extras : List UInt8) (hb : b.length = 26)
    (hname : name.length = Uint16 ((b.drop 22).take 2)) (hpos : 1 ≤ name.length)
    (hextras : extras.length = Uint16 ((b.drop 24).take 2))
    (h0 : read reader 26 = ⟨b, none, s1⟩)
    (h1 : read s1 name.length = ⟨name, none, s2⟩)
    (h2 : if extras.length = 0 then s3 = s2 else read s2 extras.length = ⟨extras, none, s3⟩) :
    readLocalFileHeader read reader =
      Outcome.ret (Except.ok
        ({ FileHeader := localFileHeaderSignature,
           Version := Uint16 ((b.drop 0).take 2),
           GeneralBits := Uint16 ((b.drop 2).take 2),
           CMethod := Uint16 ((b.drop 4).take 2),
           ModifiedTime := Uint16 ((b.drop 6).take 2),
           ModifiedDate := Uint16 ((b.drop 8).take 2),
           CRC32 := Uint32 ((b.drop 10).take 4),
           CompressedSize := Uint32 ((b.drop 14).take 4),
           UnCompressedSize := Uint32 ((b.drop 18).take 4),
           FileNameLength := Uint16 ((b.drop 22).take 2),
           ExtrasLength := Uint16 ((b.drop 24).take 2),
           FileName := name, Extras := extras,
           IsDirectory := decide (name.getLast? = some 47) },
         26 + name.length + extras.length), s3) := by
  rw [readLocalFileHeader_headerOf read reader s1 s2 s3 b name extras hb hname hpos hextras h0
    h1 h2]
  rfl

/-! ## Errors of the header parser -/

theorem readLocalFileHeader_preamble_error {τ : Type} (read : τ → Nat → RdRes τ) (reader : τ)
    (e : GoError) (h : (read reader 26).err = some e) :
    readLocalFileHeader read reader =
      Outcome.ret (Except.error (GoError.headerRead e), (read reader 26).next) := by
  unfold readLocalFileHeader
  generalize read reader 26 = r0 at h ⊢
  dsimp only
  rw [h]

theorem readLocalFileHeader_preamble_short {τ : Type} (read : τ → Nat → RdRes τ) (reader : τ)
    (h : (read reader 26).err = none) (hl : (read reader 26).data.length ≠ 26) :
    readLocalFileHeader read reader =
      Outcome.ret (Except.error (GoError.headerShort 26 (read reader 26).data.length),
        (read reader 26).next) := by
  unfold readLocalFileHeader
  generalize read reader 26 = r0 at h hl ⊢
  dsimp only
  rw [h]
  dsimp only
  rw [if_pos hl]

theorem readLocalFileHeader_name_error {τ : Type} (read : τ → Nat → RdRes τ) (reader : τ)
    (e : GoError) (h : (read reader 26).err = none) (hl : (read reader 26).data.length = 26)
    (hn : (decodePreamble (read reader 26).data).FileNameLength ≠ 0)
    (he : (read (read reader 26).next
      (decodePreamble (read reader 26).data).FileNameLength).err = some e) :
    readLocalFileHeader read reader =
      Outcome.ret (Except.error (GoError.nameRead e),
        (read (read reader 26).next
          (decodePreamble (read reader 26).data).FileNameLength).next) := by
  unfold readLocalFileHeader
  generalize read reader 26 = r0 at h hl hn he ⊢
  dsimp only
  rw [h]
  dsimp only
  rw [if_neg (by simp [hl]), if_pos hn]
  generalize read r0.next (decodePreamble r0.data).FileNameLength = r1 at he ⊢
  rw [he]

theorem readLocalFileHeader_extras_error {τ : Type} (read : τ → Nat → RdRes τ)
    (reader s1 s2 : τ) (b name : List UInt8) (e : GoError) (hb : b.length = 26)
    (h0 : read reader 26 = ⟨b, none, s1⟩)
    (h1 : if (decodePreamble b).FileNameLength = 0 then name = [] ∧ s2 = s1
      else read s1 (decodePreamble b).FileNameLength = ⟨name, none, s2⟩ ∧
        name.length = (decodePreamble b).FileNameLength)
    (hx : (decodePreamble b).ExtrasLength ≠ 0)
    (he : (read s2 (decodePreamble b).ExtrasLength).err = some e) :
    readLocalFileHeader read reader =
      Outcome.ret (Except.error (GoError.extrasRead e),
        (read s2 (decodePreamble b).ExtrasLength).next) := by
  unfold readLocalFileHeader
  rw [h0]
  dsimp only
  rw [if_neg (by simp [hb])]
  by_cases hn : (decodePreamble b).FileNameLength = 0
  · rw [if_pos hn] at h1
    obtain ⟨rfl, rfl⟩ := h1
    rw [if_neg (by simp [hn])]
    dsimp only
    rw [if_neg (by simp [hn]), if_pos hx]
    generalize read s2 (decodePreamble b).ExtrasLength = r2 at he ⊢
    rw [he]
  · rw [if_neg hn] at h1
    rw [if_pos hn, h1.1]
    dsimp only
    rw [if_neg (by simp [h1.2]), if_pos hx]
    generalize read s2 (decodePreamble b).ExtrasLength = r2 at he ⊢
    rw [he]


/-! ## Next -/

/-- After a local file header signature, `Next` hands over to `readLocalFileHeader`. -/
theorem Next_of_localFileHeader {σ : Type} (rd : σ → Nat → RdRes σ) (z : ZipStream σ)
    (herr : (z.surface.read rd 4).err = none ∨ (z.surface.read rd 4).err = some GoError.EOF)
    (hlen : (z.surface.read rd 4).data.length = 4)
    (hsig : Uint32 (z.surface.read rd 4).data = localFileHeaderSignature) :
    z.Next rd =
      match readLocalFileHeader (Surface.read rd) (z.surface.read rd 4).next with
      | Outcome.panic q => Outcome.panic q
      | Outcome.ret (Except.error e, s) =>
        Outcome.ret (⟨none, none, some e⟩, ⟨s.under, z.previous⟩)
      | Outcome.ret (Except.ok (lfh, tdr), s) =>
        match trimPrevious z.previous tdr (4 + tdr) with
        | Outcome.panic q => Outcome.panic q
        | Outcome.ret previous =>
          match lfh.CMethod with
          | 8 => Outcome.ret (⟨some lfh, some PayloadStream.deflate, none⟩, ⟨s.under, previous⟩)
          | 0 => Outcome.ret (⟨some lfh, some PayloadStream.stored, none⟩, ⟨s.under, previous⟩)
          | method => Outcome.panic (GoPanic.unknownMethod method) := by
  have h1 : ¬ ((z.surface.read rd 4).err ≠ none ∧ (z.surface.read rd 4).err ≠ some GoError.EOF) := by
    rcases herr with h | h <;> simp [h]
  have h2 : ¬ Uint32 (z.surface.read rd 4).data = directoryHeaderSignature := by
    rw [hsig]; decide
  unfold ZipStream.Next
  dsimp only
  rw [if_neg h1, if_neg (by simp [hlen]), if_neg h2, if_pos hsig, hlen]

/-- C5 (amended): for a header that `readLocalFileHeader` parsed after a Local File
Header signature and whose compression method is neither 0 nor 8, `Next` returns
nothing: it panics with `unknown compression method` (`log.Panicf`).  The carry
buffer length is taken outside the range where the trimming of `z.previous`
itself fails. -/
theorem Next_unknown_method_panics {σ : Type} (rd : σ → Nat → RdRes σ) (z : ZipStream σ)
    (lfh : LocalFileHeader) (tdr : Nat) (s : Surface σ)
    (herr : (z.surface.read rd 4).err = none ∨ (z.surface.read rd 4).err = some GoError.EOF)
    (hlen : (z.surface.read rd 4).data.length = 4)
    (hsig : Uint32 (z.surface.read rd 4).data = localFileHeaderSignature)
    (hh : readLocalFileHeader (Surface.read rd) (z.surface.read rd 4).next =
      Outcome.ret (Except.ok (lfh, tdr), s))
    (htrim : lenPrevious z.previous ≤ tdr ∨ 4 + tdr ≤ lenPrevious z.previous)
    (hm0 : lfh.CMethod ≠ 0) (hm8 : lfh.CMethod ≠ 8) :
    z.Next rd = Outcome.panic (GoPanic.unknownMethod lfh.CMethod) := by
  rw [Next_of_localFileHeader rd z herr hlen hsig, hh]
  dsimp only
  have ht : ∃ pr, trimPrevious z.previous tdr (4 + tdr) = Outcome.ret pr := by
    unfold trimPrevious
    rcases htrim with h | h
    · exact ⟨none, by rw [if_pos h]⟩
    · by_cases h' : tdr ≥ lenPrevious z.previous
      · exact ⟨none, by rw [if_pos h']⟩
      · exact ⟨_, by rw [if_neg h', if_neg (by omega)]⟩
  obtain ⟨pr, hpr⟩ := ht
  rw [hpr]
  dsimp only
  split
  · exact absurd ‹_› hm8
  · exact absurd ‹_› hm0
  · rfl

/-- `Next` after a signature read that returned the Central Directory Header
signature. -/
theorem Next_of_directoryHeader {σ : Type} (rd : σ → Nat → RdRes σ) (z : ZipStream σ)
    (hdata : (z.surface.read rd 4).data = cdhBytes)
    (herr : (z.surface.read rd 4).err = none ∨ (z.surface.read rd 4).err = some GoError.EOF) :
    z.Next rd = Outcome.ret (⟨none, none, some GoError.EOF⟩,
      ⟨(z.surface.read rd 4).next.under, z.previous⟩) := by
  have h1 : ¬ ((z.surface.read rd 4).err ≠ none ∧ (z.surface.read rd 4).err ≠ some GoError.EOF) := by
    rcases herr with h | h <;> simp [h]
  have h2 : Uint32 cdhBytes = directoryHeaderSignature := by decide
  unfold ZipStream.Next
  dsimp only
  rw [if_neg h1, hdata, if_neg (by decide), if_pos h2]

/-- `Next` after a signature read that returned fewer than four bytes or an unknown
signature. -/
theorem Next_of_bad_signature {σ : Type} (rd : σ → Nat → RdRes σ) (z : ZipStream σ)
    (h : (z.surface.read rd 4).data.length ≠ 4 ∨
      (Uint32 (z.surface.read rd 4).data ≠ localFileHeaderSignature ∧
        Uint32 (z.surface.read rd 4).data ≠ directoryHeaderSignature)) :
    ∃ e, e ≠ GoError.EOF ∧ z.Next rd = Outcome.ret (⟨none, none, some e⟩,
      ⟨(z.surface.read rd 4).next.under, z.previous⟩) := by
  unfold ZipStream.Next
  dsimp only
  by_cases h1 : (z.surface.read rd 4).err ≠ none ∧ (z.surface.read rd 4).err ≠ some GoError.EOF
  · rw [if_pos h1]
    cases he : (z.surface.read rd 4).err with
    | none => exact absurd he h1.1
    | some e =>
      refine ⟨e, ?_, rfl⟩
      intro h'
      rw [he, h'] at h1
      exact h1.2 rfl
  · rw [if_neg h1]
    by_cases h2 : (z.surface.read rd 4).data.length ≠ 4
    · rw [if_pos h2]
      exact ⟨_, by simp, rfl⟩
    · rw [if_neg h2]
      rcases h with h | ⟨hl, hc⟩
      · exact absurd h h2
      · rw [if_neg hc, if_neg hl]
        exact ⟨_, by simp, rfl⟩

/-- C10 (amended): an error other than `io.EOF` returned by the signature read comes
back from `Next` unchanged; an error returned by the preamble, name or extras
read comes back as a new error value that embeds it (`headerRead`, `nameRead`,
`extrasRead`: the `fmt.Errorf` calls of `readLocalFileHeader`). -/
theorem Next_returns_read_errors {σ : Type} (rd : σ → Nat → RdRes σ) (z : ZipStream σ) :
    (∀ e, (z.surface.read rd 4).err = some e → e ≠ GoError.EOF →
      z.Next rd = Outcome.ret (⟨none, none, some e⟩,
        ⟨(z.surface.read rd 4).next.under, z.previous⟩)) ∧
    (((z.surface.read rd 4).err = none ∨ (z.surface.read rd 4).err = some GoError.EOF) →
      (z.surface.read rd 4).data.length = 4 →
      Uint32 (z.surface.read rd 4).data = localFileHeaderSignature →
      (∀ e, (Surface.read rd (z.surface.read rd 4).next 26).err = some e →
        ∃ z1, z.Next rd = Outcome.ret (⟨none, none, some (GoError.headerRead e)⟩, z1)) ∧
      (∀ b s1 e, Surface.read rd (z.surface.read rd 4).next 26 = ⟨b, none, s1⟩ →
        b.length = 26 → (decodePreamble b).FileNameLength ≠ 0 →
        (Surface.read rd s1 (decodePreamble b).FileNameLength).err = some e →
        ∃ z1, z.Next rd = Outcome.ret (⟨none, none, some (GoError.nameRead e)⟩, z1)) ∧
      (∀ b s1 s2 name e, Surface.read rd (z.surface.read rd 4).next 26 = ⟨b, none, s1⟩ →
        b.length = 26 →
        (if (decodePreamble b).FileNameLength = 0 then name = [] ∧ s2 = s1
          else Surface.read rd s1 (decodePreamble b).FileNameLength = ⟨name, none, s2⟩ ∧
            name.length = (decodePreamble b).FileNameLength) →
        (decodePreamble b).ExtrasLength ≠ 0 →
        (Surface.read rd s2 (decodePreamble b).ExtrasLength).err = some e →
        ∃ z1, z.Next rd = Outcome.ret (⟨none, none, some (GoError.extrasRead e)⟩, z1))) := by
  constructor
  · intro e he hne
    unfold ZipStream.Next
    dsimp only
    rw [if_pos (by simp [he, hne]), he]
  · intro herr hlen hsig
    rw [Next_of_localFileHeader rd z herr hlen hsig]
    refine ⟨?_, ?_, ?_⟩
    · intro e he
      rw [readLocalFileHeader_preamble_error _ _ e he]
      exact ⟨_, rfl⟩
    · intro b s1 e h0 hb hn he
      have h := readLocalFileHeader_name_error (Surface.read rd) (z.surface.read rd 4).next e
        (by rw [h0]) (by rw [h0]; exact hb) (by rw [h0]; exact hn) (by rw [h0]; exact he)
      rw [h]
      exact ⟨_, rfl⟩
    · intro b s1 s2 name e h0 hb h1 hx he
      rw [readLocalFileHeader_extras_error (Surface.read rd) _ s1 s2 b name e hb h0 h1 hx he]
      exact ⟨_, rfl⟩

/-! ## Reading from an in-memory stream -/

/-- A read of `m` bytes on a read surface over an in-memory stream hands out the
next `m` bytes still to come (fewer at the end of the stream), first from the
carry buffer, with a nil error when all `m` bytes were there. -/
theorem surface_read_slice (s : Surface (List UInt8)) (m : Nat) (hm : 0 < m) :
    (s.read sliceRead m).data = s.content.take m ∧
    (s.read sliceRead m).next.carried = s.carried.drop m ∧
    (s.read sliceRead m).next.content = s.content.drop m ∧
    ((s.read sliceRead m).err = none ∨ (s.read sliceRead m).err = some GoError.EOF) ∧
    (m ≤ s.content.length → (s.read sliceRead m).err = none) := by
  cases s with
  | direct u =>
    cases u with
    | nil => simp [Surface.read, sliceRead, bytesReaderRead, Surface.content, Surface.carried,
        Surface.under]; omega
    | cons a u => simp [Surface.read, sliceRead, bytesReaderRead, Surface.content,
        Surface.carried, Surface.under]
  | appended rem u =>
    have hv : ∀ (f d : List UInt8) (e : Option GoError), (e = none ∨ e = some GoError.EOF) →
        appendVisit m f d e = if (f ++ d).length = m then Visit.done (f ++ d) none
          else Visit.more (f ++ d) := by
      intro f d e he
      unfold appendVisit
      rw [if_neg (by rcases he with h | h <;> simp [h])]
    have hr1 : bytesReaderRead rem m = ⟨rem.take m, if rem = [] then some GoError.EOF else none,
        rem.drop m⟩ := by
      cases rem <;> simp [bytesReaderRead]
    have hr2 : sliceRead u (m - rem.length) = ⟨u.take (m - rem.length),
        if u = [] then some GoError.EOF else none, u.drop (m - rem.length)⟩ := by
      cases u <;> simp [sliceRead, bytesReaderRead]
    have hread : Surface.read sliceRead (Surface.appended rem u) m =
        ⟨(rem ++ u).take m, if m ≤ (rem ++ u).length then none else some GoError.EOF,
          Surface.appended (rem.drop m) (u.drop (m - rem.length))⟩ := by
      unfold Surface.read appendReader.Read
      dsimp only
      rw [hr1]
      dsimp only
      rw [hv _ _ _ (by split <;> simp)]
      by_cases h1 : m ≤ rem.length
      · have e1 : ([] ++ List.take m rem).length = m := by simp [h1]
        rw [if_pos e1]
        rw [List.take_append_of_le_length h1, Nat.sub_eq_zero_of_le h1,
          if_pos (by rw [List.length_append]; omega)]
        rfl
      · have e1 : ¬ ([] ++ List.take m rem).length = m := by simp; omega
        rw [if_neg e1]
        dsimp only
        have e2 : ([] ++ List.take m rem) = rem := by
          simp; omega
        rw [e2, hr2]
        dsimp only
        rw [hv _ _ _ (by split <;> simp)]
        have e3 : rem ++ List.take (m - rem.length) u = List.take m (rem ++ u) := by
          rw [List.take_append_eq_append_take]
          congr 1
          exact (List.take_of_length_le (by omega)).symm
        have e4 : List.drop m rem = [] := List.drop_of_length_le (by omega)
        rw [e3, e4]
        by_cases h2 : m ≤ (rem ++ u).length
        · rw [if_pos (by simp; simp at h2; omega), if_pos h2]
        · rw [if_neg (by simp; simp at h2; omega), if_neg h2]
    rw [hread]
    refine ⟨rfl, rfl, ?_, ?_, ?_⟩
    · show rem.drop m ++ u.drop (m - rem.length) = (rem ++ u).drop m
      rw [List.drop_append_eq_append_drop]
    · dsimp only
      split <;> simp
    · intro h
      exact if_pos h



theorem readLocalFileHeader_preamble_fail {τ : Type} (read : τ → Nat → RdRes τ) (reader : τ)
    (h : (read reader 26).err ≠ none ∨ (read reader 26).data.length ≠ 26) :
    ∃ e s, e ≠ GoError.EOF ∧ readLocalFileHeader read reader = Outcome.ret (Except.error e, s) := by
  cases he : (read reader 26).err with
  | some e =>
    exact ⟨_, _, by simp, readLocalFileHeader_preamble_error read reader e he⟩
  | none =>
    rcases h with h | h
    · exact absurd he h
    · exact ⟨_, _, by simp, readLocalFileHeader_preamble_short read reader he h⟩

theorem readLocalFileHeader_name_fail {τ : Type} (read : τ → Nat → RdRes τ) (reader s1 : τ)
    (b : List UInt8) (hb : b.length = 26) (h0 : read reader 26 = ⟨b, none, s1⟩)
    (hn : (decodePreamble b).FileNameLength ≠ 0)
    (h : (read s1 (decodePreamble b).FileNameLength).err ≠ none ∨
      (read s1 (decodePreamble b).FileNameLength).data.length ≠ (decodePreamble b).FileNameLength) :
    ∃ e s, e ≠ GoError.EOF ∧ readLocalFileHeader read reader = Outcome.ret (Except.error e, s) := by
  unfold readLocalFileHeader
  rw [h0]
  dsimp only
  rw [if_neg (by simp [hb]), if_pos hn]
  generalize read s1 (decodePreamble b).FileNameLength = r1 at h ⊢
  cases he : r1.err with
  | some e => exact ⟨_, _, by simp, rfl⟩
  | none =>
    rcases h with h | h
    · exact absurd he h
    · dsimp only
      rw [if_pos ⟨hn, h⟩]
      exact ⟨_, _, by simp, rfl⟩

theorem readLocalFileHeader_extras_fail {τ : Type} (read : τ → Nat → RdRes τ)
    (reader s1 s2 : τ) (b name : List UInt8) (hb : b.length = 26)
    (h0 : read reader 26 = ⟨b, none, s1⟩)
    (h1 : if (decodePreamble b).FileNameLength = 0 then name = [] ∧ s2 = s1
      else read s1 (decodePreamble b).FileNameLength = ⟨name, none, s2⟩ ∧
        name.length = (decodePreamble b).FileNameLength)
    (hx : (decodePreamble b).ExtrasLength ≠ 0)
    (h : (read s2 (decodePreamble b).ExtrasLength).err ≠ none ∨
      (read s2 (decodePreamble b).ExtrasLength).data.length ≠ (decodePreamble b).ExtrasLength) :
    ∃ e s, e ≠ GoError.EOF ∧ readLocalFileHeader read reader = Outcome.ret (Except.error e, s) := by
  have key : ∀ r2 : RdRes τ, (r2.err ≠ none ∨ r2.data.length ≠ (decodePreamble b).ExtrasLength) →
      ∃ e s, e ≠ GoError.EOF ∧
        (match r2.err with
          | some e => Outcome.ret (Except.error (GoError.extrasRead e), r2.next)
          | none =>
            if (decodePreamble b).ExtrasLength ≠ 0 ∧
                r2.data.length ≠ (decodePreamble b).ExtrasLength then
              Outcome.ret (Except.error
                (GoError.extrasShort (decodePreamble b).ExtrasLength r2.data.length), r2.next)
            else
              match name.getLast? with
              | none => Outcome.panic (GoPanic.indexOutOfRange (-1) 0)
              | some last =>
                Outcome.ret (Except.ok
                  ({ decodePreamble b with
                      FileName := name, Extras := r2.data, IsDirectory := decide (last = 47) },
                   26 + name.length + r2.data.length), r2.next)) =
          (Outcome.ret (Except.error e, s) :
            Outcome (Except GoError (LocalFileHeader × Nat) × τ)) := by
    intro r2 h
    cases he : r2.err with
    | some e => exact ⟨_, _, by simp, rfl⟩
    | none =>
      rcases h with h | h
      · exact absurd he h
      · dsimp only
        rw [if_pos ⟨hx, h⟩]
        exact ⟨_, _, by simp, rfl⟩
  unfold readLocalFileHeader
  rw [h0]
  dsimp only
  rw [if_neg (by simp [hb])]
  by_cases hn : (decodePreamble b).FileNameLength = 0
  · rw [if_pos hn] at h1
    obtain ⟨rfl, rfl⟩ := h1
    rw [if_neg (by simp [hn])]
    dsimp only
    rw [if_neg (by simp [hn]), if_pos hx]
    exact key _ h
  · rw [if_neg hn] at h1
    rw [if_pos hn, h1.1]
    dsimp only
    rw [if_neg (by simp [h1.2]), if_pos hx]
    exact key _ h


theorem surface_carried {σ : Type} (z : ZipStream σ) : z.surface.carried = z.previous.getD [] := by
  unfold ZipStream.surface
  split <;> simp_all [Surface.carried]
  rename_i h
  cases hp : z.previous with
  | none => rfl
  | some c =>
    cases c with
    | nil => rfl
    | cons a c => exact absurd hp (h a c)

theorem surface_under {σ : Type} (z : ZipStream σ) : z.surface.under = z.Reader := by
  unfold ZipStream.surface
  split <;> rfl

theorem surface_content (z : ZipStream (List UInt8)) : z.surface.content = z.content := by
  unfold Surface.content ZipStream.content
  rw [surface_carried, surface_under]

/-- C8: whatever the carry buffer holds, when the next four bytes of carry buffer then
underlying stream are the Central Directory Header signature, `Next` returns a
nil header, a nil payload stream and exactly `io.EOF`, and leaves the carry
buffer as it was.  First for any reader whose 4-byte read on the read surface
returns these bytes with a nil or `io.EOF` error, then for an in-memory stream
whose bytes still to come start with the signature. -/
theorem Next_centralDirectory_eof :
    (∀ (σ : Type) (rd : σ → Nat → RdRes σ) (z : ZipStream σ),
      (z.surface.read rd 4).data = cdhBytes →
      ((z.surface.read rd 4).err = none ∨ (z.surface.read rd 4).err = some GoError.EOF) →
      z.Next rd = Outcome.ret (⟨none, none, some GoError.EOF⟩,
        ⟨(z.surface.read rd 4).next.under, z.previous⟩)) ∧
    (∀ (z : ZipStream (List UInt8)) (rest : List UInt8), z.content = cdhBytes ++ rest →
      z.Next sliceRead = Outcome.ret (⟨none, none, some GoError.EOF⟩,
        ⟨(z.surface.read sliceRead 4).next.under, z.previous⟩)) := by
  refine ⟨fun σ rd z hd he => Next_of_directoryHeader rd z hd he, ?_⟩
  intro z rest hc
  obtain ⟨hd, -, -, -, herr⟩ := surface_read_slice z.surface 4 (by omega)
  rw [surface_content, hc] at hd herr
  apply Next_of_directoryHeader
  · rw [hd]
    exact List.take_left' rfl
  · left
    exact herr (by rw [List.length_append]; simp [cdhBytes])

/-- C9: when the next four bytes decode to neither the Local File Header nor the
Central Directory Header signature, or fewer than four bytes are supplied,
`Next` returns no header, no payload stream, and an error that is not `io.EOF`.
First for any reader, in terms of what its 4-byte read on the read surface
returns, then for an in-memory stream, in terms of the bytes still to come. -/
theorem Next_bad_signature :
    (∀ (σ : Type) (rd : σ → Nat → RdRes σ) (z : ZipStream σ),
      ((z.surface.read rd 4).data.length ≠ 4 ∨
        (Uint32 (z.surface.read rd 4).data ≠ localFileHeaderSignature ∧
          Uint32 (z.surface.read rd 4).data ≠ directoryHeaderSignature)) →
      ∃ e, e ≠ GoError.EOF ∧ z.Next rd = Outcome.ret (⟨none, none, some e⟩,
        ⟨(z.surface.read rd 4).next.under, z.previous⟩)) ∧
    (∀ (z : ZipStream (List UInt8)),
      (z.content.length < 4 ∨
        (Uint32 (z.content.take 4) ≠ localFileHeaderSignature ∧
          Uint32 (z.content.take 4) ≠ directoryHeaderSignature)) →
      ∃ e, e ≠ GoError.EOF ∧ z.Next sliceRead = Outcome.ret (⟨none, none, some e⟩,
        ⟨(z.surface.read sliceRead 4).next.under, z.previous⟩)) := by
  refine ⟨fun σ rd z h => Next_of_bad_signature rd z h, ?_⟩
  intro z h
  obtain ⟨hd, -, -, -, -⟩ := surface_read_slice z.surface 4 (by omega)
  rw [surface_content] at hd
  apply Next_of_bad_signature
  rw [hd]
  rcases h with h | h
  · left
    rw [List.length_take]
    omega
  · right
    exact h

/-- C7: for an in-memory archive stream and any carry buffer, when the bytes still
to come are the Local File Header signature followed by a header that ends
early (fewer than 26 preamble bytes, or fewer bytes than the preamble plus the
declared name and extras lengths), `Next` returns no header, no payload stream
and an error that is not `io.EOF`. -/
theorem Next_truncated_header (z : ZipStream (List UInt8)) (body : List UInt8)
    (hc : z.content = lfhBytes ++ body)
    (ht : body.length < 26 ∨
      body.length < 26 + Uint16 ((body.drop 22).take 2) + Uint16 ((body.drop 24).take 2)) :
    ∃ e z1, e ≠ GoError.EOF ∧ z.Next sliceRead = Outcome.ret (⟨none, none, some e⟩, z1) := by
  obtain ⟨hd, -, hnext, -, herr⟩ := surface_read_slice z.surface 4 (by omega)
  rw [surface_content, hc] at hd hnext herr
  have hd4 : (z.surface.read sliceRead 4).data = lfhBytes := by
    rw [hd]; exact List.take_left' rfl
  have he4 : (z.surface.read sliceRead 4).err = none :=
    herr (by rw [List.length_append]; simp [lfhBytes])
  have hn4 : (z.surface.read sliceRead 4).next.content = body := by
    rw [hnext]; exact List.drop_left' rfl
  rw [Next_of_localFileHeader sliceRead z (Or.inl he4) (by rw [hd4]; rfl) (by rw [hd4]; decide)]
  generalize (z.surface.read sliceRead 4).next = s0 at hn4 ⊢
  suffices h : ∃ e s, e ≠ GoError.EOF ∧
      readLocalFileHeader (Surface.read sliceRead) s0 = Outcome.ret (Except.error e, s) by
    obtain ⟨e, s, hne, hr⟩ := h
    rw [hr]
    exact ⟨e, _, hne, rfl⟩
  obtain ⟨hd0, -, hnext0, herr0, hfull0⟩ := surface_read_slice s0 26 (by omega)
  rw [hn4] at hd0 hnext0 hfull0
  by_cases hlen : body.length < 26
  · apply readLocalFileHeader_preamble_fail
    right
    rw [hd0, List.length_take]
    omega
  · have hb : (body.take 26).length = 26 := by rw [List.length_take]; omega
    have h0 : Surface.read sliceRead s0 26 =
        ⟨body.take 26, none, (Surface.read sliceRead s0 26).next⟩ := by
      rw [← hd0, ← hfull0 (by omega)]
    have hnl : (decodePreamble (body.take 26)).FileNameLength =
        Uint16 ((body.drop 22).take 2) := by
      rw [decodePreamble_eq _ hb]
      show Uint16 (((body.take 26).drop 22).take 2) = _
      rw [List.drop_take, List.take_take]
      rfl
    have hxl : (decodePreamble (body.take 26)).ExtrasLength =
        Uint16 ((body.drop 24).take 2) := by
      rw [decodePreamble_eq _ hb]
      show Uint16 (((body.take 26).drop 24).take 2) = _
      rw [List.drop_take, List.take_take]
      rfl
    rw [← hnl, ← hxl] at ht
    generalize (Surface.read sliceRead s0 26).next = s1 at h0 hnext0
    generalize hN : (decodePreamble (body.take 26)).FileNameLength = N at ht
    generalize hX : (decodePreamble (body.take 26)).ExtrasLength = X at ht
    have ht : body.length < 26 + N + X := by omega
    by_cases hn : N = 0
    · -- no name read; the extras read is short
      have hx : X ≠ 0 := by omega
      obtain ⟨hd2, -, -, herr2, -⟩ := surface_read_slice s1 X (by omega)
      apply readLocalFileHeader_extras_fail (Surface.read sliceRead) s0 s1 s1 _ [] hb h0
      · rw [hN, if_pos hn]; exact ⟨rfl, rfl⟩
      · rw [hX]; exact hx
      · right
        rw [hX, hd2, hnext0, List.length_take, List.length_drop]
        omega
    · obtain ⟨hd1, -, hnext1, herr1, hfull1⟩ := surface_read_slice s1 N (by omega)
      rw [hnext0] at hd1 hnext1 hfull1
      by_cases hshort : body.length < 26 + N
      · apply readLocalFileHeader_name_fail (Surface.read sliceRead) s0 s1 _ hb h0
        · rw [hN]; exact hn
        · right
          rw [hN, hd1, List.length_take, List.length_drop]
          omega
      · have hx : X ≠ 0 := by omega
        obtain ⟨hd2, -, -, herr2, -⟩ :=
          surface_read_slice (Surface.read sliceRead s1 N).next X (by omega)
        apply readLocalFileHeader_extras_fail (Surface.read sliceRead) s0 s1
          (Surface.read sliceRead s1 N).next _ ((body.drop 26).take N) hb h0
        · rw [hN, if_neg hn]
          refine ⟨?_, ?_⟩
          · rw [← hd1, ← hfull1 (by rw [List.length_drop]; omega)]
          · rw [List.length_take, List.length_drop]; omega
        · rw [hX]; exact hx
        · right
          rw [hX, hd2, hnext1, List.length_take, List.length_drop, List.length_drop]
          omega

/-! ## The signature scan and the read loop of a stored entry -/

theorem scan_eq_none (ok : Nat → Bool) (p : List UInt8) (n : Nat) :
    ∀ i, scan ok p i n = none ↔ ∀ k, i ≤ k → k < i + n → ok (window p k) = false := by
  induction n with
  | zero => intro i; simp [scan]; intro k h1 h2; omega
  | succ n ih =>
    intro i
    unfold scan
    by_cases h : ok (Uint32 ((p.drop i).take 4)) = true
    · rw [if_pos h]
      constructor
      · intro h'
        exact absurd h' (by simp)
      · intro hk
        have h' := hk i (le_refl _) (by omega)
        rw [window, h] at h'
        exact absurd h' (by simp)
    · rw [if_neg h, ih (i + 1)]
      constructor
      · intro hk k h1 h2
        by_cases hki : k = i
        · subst hki; simpa [window] using h
        · exact hk k (by omega) (by omega)
      · intro hk k h1 h2
        exact hk k (by omega) (by omega)

theorem scan_eq_some (ok : Nat → Bool) (p : List UInt8) (n : Nat) :
    ∀ i j, i ≤ j → j < i + n → ok (window p j) = true →
      (∀ k, i ≤ k → k < j → ok (window p k) = false) → scan ok p i n = some j := by
  induction n with
  | zero => intro i j h1 h2; omega
  | succ n ih =>
    intro i j h1 h2 hj hk
    unfold scan
    by_cases hij : i = j
    · subst hij
      rw [if_pos (by simpa [window] using hj)]
    · have := hk i (le_refl _) (by omega)
      rw [if_neg (by simpa [window] using this)]
      exact ih (i + 1) j (by omega) (by omega) hj (fun k h1 h2 => hk k (by omega) h2)

theorem window_take (t : List UInt8) (m j : Nat) (h : j + 4 ≤ m) :
    window (t.take m) j = window t j := by
  unfold window
  rw [List.drop_take, List.take_take, Nat.min_eq_left (by omega)]

theorem window_drop (t : List UInt8) (k j : Nat) : window (t.drop k) j = window t (k + j) := by
  unfold window
  rw [List.drop_drop]

theorem window_append_left (P t : List UInt8) :
    window (P ++ t) P.length = Uint32 (t.take 4) := by
  unfold window
  rw [List.drop_left]

theorem lenPrevious_eq (c : Option (List UInt8)) : lenPrevious c = (c.getD []).length := by
  cases c <;> rfl

/-- The pull at the start of `Read` on an in-memory stream, with a carry buffer no
longer than the caller's buffer: the next bytes of the stream come in, the
carry buffer is used up and `z.previous` becomes nil. -/
theorem Read_pull (z : ZipStream (List UInt8)) (m : Nat) (hm : 0 < m)
    (hL : lenPrevious z.previous ≤ m) :
    (z.surface.read sliceRead m).data = z.content.take m ∧
    (z.surface.read sliceRead m).next.under = z.content.drop m ∧
    clearPrevious z.previous (z.surface.read sliceRead m).data.length = none := by
  obtain ⟨hd, hc, hn, -, -⟩ := surface_read_slice z.surface m hm
  rw [surface_content] at hd hn
  rw [surface_carried] at hc
  rw [lenPrevious_eq] at hL
  refine ⟨hd, ?_, ?_⟩
  · rw [← hn, Surface.content, hc, List.drop_of_length_le hL, List.nil_append]
  · unfold clearPrevious
    rw [if_pos]
    rw [hd, List.length_take, lenPrevious_eq, ZipStream.content, List.length_append]
    omega

theorem Read_more (z : ZipStream (List UInt8)) (m : Nat) (hm : 0 < m)
    (hL : lenPrevious z.previous ≤ m)
    (hscan : scan isBoundary (z.content.take m) 0 ((z.content.take m).length - 4) = none)
    (h4 : 4 ≤ (z.content.take m).length) :
    z.Read sliceRead m = Outcome.ret ⟨(z.content.take m).take ((z.content.take m).length - 4),
      none, ⟨z.content.drop m, some ((z.content.take m).drop ((z.content.take m).length - 4))⟩⟩ := by
  obtain ⟨hd, hu, hcl⟩ := Read_pull z m hm hL
  unfold ZipStream.Read
  dsimp only
  generalize z.surface.read sliceRead m = r at hd hu hcl
  rw [hcl, hd, hscan, hu]
  dsimp only
  rw [if_neg (by omega)]
  rfl

theorem Read_boundary (z : ZipStream (List UInt8)) (m i : Nat) (hm : 0 < m)
    (hL : lenPrevious z.previous ≤ m)
    (hscan : scan isBoundary (z.content.take m) 0 ((z.content.take m).length - 4) = some i)
    (hdd : window (z.content.take m) i ≠ dataDescriptorSignature) :
    z.Read sliceRead m = Outcome.ret ⟨(z.content.take m).take i, some GoError.EOF,
      ⟨z.content.drop m, some ((z.content.take m).drop i)⟩⟩ := by
  obtain ⟨hd, hu, hcl⟩ := Read_pull z m hm hL
  unfold ZipStream.Read
  dsimp only
  generalize z.surface.read sliceRead m = r at hd hu hcl
  rw [hcl, hd, hscan, hu]
  dsimp only
  rw [if_neg (by simpa [window] using hdd)]
  rfl

theorem isHeader_cases (v : Nat) (h : isHeader v = true) :
    v = localFileHeaderSignature ∨ v = directoryHeaderSignature := by
  simpa [isHeader] using h

theorem isBoundary_of_isHeader (v : Nat) (h : isHeader v = true) : isBoundary v = true := by
  rcases isHeader_cases v h with h | h <;> simp [isBoundary, h]

theorem not_dd_of_isHeader (v : Nat) (h : isHeader v = true) : v ≠ dataDescriptorSignature := by
  rcases isHeader_cases v h with h | h <;> rw [h] <;> decide

/-- The last `Read` of a stored entry: fewer than `m - 4` payload bytes are left,
the boundary signature is found, the payload bytes are returned with `io.EOF`
and the bytes from the signature on become the carry buffer. -/
theorem Read_final (m : Nat) (S rest P : List UInt8) (z : ZipStream (List UInt8))
    (hSlen : S.length = 4) (hS : isHeader (Uint32 S) = true) (hrest : rest ≠ [])
    (hc : z.content = P ++ (S ++ rest)) (hL : lenPrevious z.previous ≤ m)
    (hno : ∀ j, j < P.length → isBoundary (window (P ++ (S ++ rest)) j) = false)
    (hfin : P.length + 4 < m) :
    z.Read sliceRead m = Outcome.ret ⟨P, some GoError.EOF,
      ⟨(S ++ rest).drop (m - P.length), some ((S ++ rest).take (m - P.length))⟩⟩ := by
  have hrl : 0 < rest.length := List.length_pos.mpr hrest
  have hw : window (P ++ (S ++ rest)) P.length = Uint32 S := by
    rw [window_append_left, List.take_left' hSlen]
  have hn : ((P ++ (S ++ rest)).take m).length = min m (P.length + (4 + rest.length)) := by
    simp [hSlen]
  have hscan : scan isBoundary (z.content.take m) 0 ((z.content.take m).length - 4) =
      some P.length := by
    rw [hc]
    apply scan_eq_some
    · omega
    · rw [hn]; omega
    · rw [window_take _ _ _ (by omega), hw]
      exact isBoundary_of_isHeader _ hS
    · intro k _ hk
      rw [window_take _ _ _ (by omega)]
      exact hno k hk
  have hdd : window (z.content.take m) P.length ≠ dataDescriptorSignature := by
    rw [hc, window_take _ _ _ (by omega), hw]
    exact not_dd_of_isHeader _ hS
  rw [Read_boundary z m P.length (by omega) hL hscan hdd, hc]
  have e1 : ((P ++ (S ++ rest)).take m).take P.length = P := by
    rw [List.take_take, Nat.min_eq_left (by omega), List.take_left]
  have e2 : ((P ++ (S ++ rest)).take m).drop P.length = (S ++ rest).take (m - P.length) := by
    rw [List.drop_take, List.drop_left]
  have e3 : (P ++ (S ++ rest)).drop m = (S ++ rest).drop (m - P.length) := by
    rw [List.drop_append_eq_append_drop, List.drop_of_length_le (by omega), List.nil_append]
  rw [e1, e2, e3]

/-- A `Read` of a stored entry with at least `m - 4` payload bytes left: `m - 4`
payload bytes are returned with a nil error and four bytes are held back. -/
theorem Read_step (m : Nat) (hm : 5 ≤ m) (S rest P : List UInt8) (z : ZipStream (List UInt8))
    (hSlen : S.length = 4)
    (hc : z.content = P ++ (S ++ rest)) (hL : lenPrevious z.previous ≤ m)
    (hno : ∀ j, j < P.length → isBoundary (window (P ++ (S ++ rest)) j) = false)
    (hmore : m ≤ P.length + 4) :
    ∃ z1, z.Read sliceRead m = Outcome.ret ⟨P.take (m - 4), none, z1⟩ ∧
      z1.content = P.drop (m - 4) ++ (S ++ rest) ∧ lenPrevious z1.previous ≤ m := by
  have hn : ((P ++ (S ++ rest)).take m).length = m := by
    simp [hSlen]; omega
  have hscan : scan isBoundary (z.content.take m) 0 ((z.content.take m).length - 4) = none := by
    rw [hc, hn, scan_eq_none]
    intro k _ hk
    rw [window_take _ _ _ (by omega)]
    exact hno k (by omega)
  rw [Read_more z m (by omega) hL hscan (by rw [hc, hn]; omega), hc, hn]
  refine ⟨⟨(P ++ (S ++ rest)).drop m, some (((P ++ (S ++ rest)).take m).drop (m - 4))⟩,
    ?_, ?_, ?_⟩
  · congr 2
    rw [List.take_take, Nat.min_eq_left (by omega), List.take_append_of_le_length (by omega)]
  · show ((P ++ (S ++ rest)).take m).drop (m - 4) ++ (P ++ (S ++ rest)).drop m = _
    rw [← List.drop_append_of_le_length (by rw [hn]; omega), List.take_append_drop,
      List.drop_append_of_le_length (by omega)]
  · show (((P ++ (S ++ rest)).take m).drop (m - 4)).length ≤ m
    rw [List.length_drop, hn]
    omega

/-- Draining a stored entry from an in-memory stream with a buffer of at least five
bytes: the read loop ends with `io.EOF` after returning exactly the payload, and
the carry buffer then starts at the boundary signature. -/
theorem readEntry_stored (m : Nat) (hm : 5 ≤ m) (S rest : List UInt8)
    (hSlen : S.length = 4) (hS : isHeader (Uint32 S) = true) (hrest : rest ≠ []) :
    ∀ (k : Nat) (P : List UInt8), P.length ≤ k →
      ∀ (z : ZipStream (List UInt8)) (acc : List UInt8) (fuel : Nat),
        z.content = P ++ (S ++ rest) → lenPrevious z.previous ≤ m →
        (∀ j, j < P.length → isBoundary (window (P ++ (S ++ rest)) j) = false) →
        P.length < fuel →
        readEntry sliceRead m fuel z acc = Drained.eof (acc ++ P)
          ⟨(S ++ rest).drop (m - P.length % (m - 4)),
            some ((S ++ rest).take (m - P.length % (m - 4)))⟩ := by
  intro k
  induction k with
  | zero =>
    intro P hk z acc fuel hc hL hno hfuel
    obtain ⟨fuel, rfl⟩ : ∃ f, fuel = f + 1 := ⟨fuel - 1, by omega⟩
    unfold readEntry
    rw [Read_final m S rest P z hSlen hS hrest hc hL hno (by omega),
      Nat.mod_eq_of_lt (by omega)]
  | succ k ih =>
    intro P hk z acc fuel hc hL hno hfuel
    obtain ⟨fuel, rfl⟩ : ∃ f, fuel = f + 1 := ⟨fuel - 1, by omega⟩
    by_cases hfin : P.length + 4 < m
    · unfold readEntry
      rw [Read_final m S rest P z hSlen hS hrest hc hL hno hfin,
        Nat.mod_eq_of_lt (by omega)]
    · obtain ⟨z1, hr, hc1, hL1⟩ := Read_step m hm S rest P z hSlen hc hL hno (by omega)
      unfold readEntry
      rw [hr]
      dsimp only
      have hlen : (P.drop (m - 4)).length = P.length - (m - 4) := List.length_drop _ _
      have hno1 : ∀ j, j < (P.drop (m - 4)).length →
          isBoundary (window (P.drop (m - 4) ++ (S ++ rest)) j) = false := by
        intro j hj
        have h := hno (m - 4 + j) (by omega)
        rw [← window_drop, List.drop_append_of_le_length (by omega)] at h
        exact h
      rw [ih (P.drop (m - 4)) (by omega) z1 (acc ++ P.take (m - 4)) fuel hc1 hL1 hno1 (by omega),
        List.append_assoc, List.take_append_drop, hlen]
      rw [Nat.mod_eq_sub_mod (a := P.length) (by omega)]

/-! ## Next on a well-formed header -/

theorem rdRes_eq {σ : Type} (r : RdRes σ) (d : List UInt8) (e : Option GoError) (n : σ)
    (h1 : r.data = d) (h2 : r.err = e) (h3 : r.next = n) : r = ⟨d, e, n⟩ := by
  cases r
  simp_all

/-- On an in-memory stream whose next bytes are a preamble, a non-empty name and the
extras, `readLocalFileHeader` returns the header and leaves the bytes after it. -/
theorem readLocalFileHeader_slice (s0 : Surface (List UInt8)) (b name extras tail : List UInt8)
    (hc : s0.content = b ++ (name ++ (extras ++ tail)))
    (hb : b.length = 26) (hname : name.length = Uint16 ((b.drop 22).take 2))
    (hpos : 1 ≤ name.length) (hextras : extras.length = Uint16 ((b.drop 24).take 2)) :
    ∃ s3, readLocalFileHeader (Surface.read sliceRead) s0 =
        Outcome.ret (Except.ok (headerOf b name extras, 26 + name.length + extras.length), s3) ∧
      s3.content = tail ∧
      s3.carried = s0.carried.drop (26 + name.length + extras.length) := by
  obtain ⟨hd0, hk0, hn0, -, he0⟩ := surface_read_slice s0 26 (by omega)
  rw [hc] at hd0 hn0 he0
  rw [List.take_left' hb] at hd0
  rw [List.drop_left' hb] at hn0
  have he0 := he0 (by rw [List.length_append]; omega)
  generalize hs1 : (Surface.read sliceRead s0 26).next = s1 at hk0 hn0
  obtain ⟨hd1, hk1, hn1, -, he1⟩ := surface_read_slice s1 name.length (by omega)
  rw [hn0] at hd1 hn1 he1
  rw [List.take_left' rfl] at hd1
  rw [List.drop_left' rfl] at hn1
  have he1 := he1 (by rw [List.length_append]; omega)
  generalize hs2 : (Surface.read sliceRead s1 name.length).next = s2 at hk1 hn1
  have h0 : Surface.read sliceRead s0 26 = ⟨b, none, s1⟩ := rdRes_eq _ _ _ _ hd0 he0 hs1
  have h1 : Surface.read sliceRead s1 name.length = ⟨name, none, s2⟩ :=
    rdRes_eq _ _ _ _ hd1 he1 hs2
  by_cases hx : extras.length = 0
  · have hnil : extras = [] := List.length_eq_zero.mp hx
    refine ⟨s2, ?_, ?_, ?_⟩
    · exact readLocalFileHeader_headerOf (Surface.read sliceRead) s0 s1 s2 s2 b name extras
        hb hname hpos hextras h0 h1 (by rw [if_pos hx])
    · rw [hn1, hnil, List.nil_append]
    · rw [hk1, hk0, List.drop_drop, hx]
      congr 1
  · obtain ⟨hd2, hk2, hn2, -, he2⟩ := surface_read_slice s2 extras.length (by omega)
    rw [hn1] at hd2 hn2 he2
    rw [List.take_left' rfl] at hd2
    rw [List.drop_left' rfl] at hn2
    have he2 := he2 (by rw [List.length_append]; omega)
    refine ⟨(Surface.read sliceRead s2 extras.length).next, ?_, hn2, ?_⟩
    · exact readLocalFileHeader_headerOf (Surface.read sliceRead) s0 s1 s2 _ b name extras
        hb hname hpos hextras h0 h1 (by rw [if_neg hx]; exact rdRes_eq _ _ _ _ hd2 he2 rfl)
    · rw [hk2, hk1, hk0, List.drop_drop, List.drop_drop]
      congr 1
      omega

/-- `Next` on an in-memory stream whose next bytes are a well-formed
local file header (method 0 or 8, non-empty name) returns the header and leaves
exactly the bytes after the header still to come; the carry buffer loses its
first `4 + 26 + nameLen + extrasLen` bytes. -/
theorem Next_header_slice (z : ZipStream (List UInt8)) (b name extras tail : List UInt8)
    (hc : z.content = lfhBytes ++ (b ++ (name ++ (extras ++ tail))))
    (hb : b.length = 26) (hname : name.length = Uint16 ((b.drop 22).take 2))
    (hpos : 1 ≤ name.length) (hextras : extras.length = Uint16 ((b.drop 24).take 2))
    (hmeth : Uint16 ((b.drop 4).take 2) = 0 ∨ Uint16 ((b.drop 4).take 2) = 8)
    (htrim : lenPrevious z.previous ≤ 26 + name.length + extras.length ∨
      4 + (26 + name.length + extras.length) ≤ lenPrevious z.previous) :
    ∃ z1, z.Next sliceRead = Outcome.ret
        (⟨some (headerOf b name extras),
          some (if Uint16 ((b.drop 4).take 2) = 8 then PayloadStream.deflate
            else PayloadStream.stored), none⟩, z1) ∧
      z1.content = tail ∧
      z1.previous = (if lenPrevious z.previous ≤ 26 + name.length + extras.length then none
        else some ((z.previous.getD []).drop (4 + (26 + name.length + extras.length)))) := by
  obtain ⟨hd, hk, hnext, -, herr⟩ := surface_read_slice z.surface 4 (by omega)
  rw [surface_content, hc] at hd hnext herr
  rw [surface_carried] at hk
  have hd4 : (z.surface.read sliceRead 4).data = lfhBytes := by
    rw [hd]; exact List.take_left' rfl
  have he4 : (z.surface.read sliceRead 4).err = none :=
    herr (by rw [List.length_append]; simp [lfhBytes])
  have hn4 : (z.surface.read sliceRead 4).next.content = b ++ (name ++ (extras ++ tail)) := by
    rw [hnext]; exact List.drop_left' rfl
  rw [Next_of_localFileHeader sliceRead z (Or.inl he4) (by rw [hd4]; rfl) (by rw [hd4]; decide)]
  generalize (z.surface.read sliceRead 4).next = s0 at hn4 hk ⊢
  obtain ⟨s3, hr, hc3, hk3⟩ := readLocalFileHeader_slice s0 b name extras tail hn4 hb hname
    hpos hextras
  rw [hr]
  dsimp only
  rw [hk, List.drop_drop] at hk3
  have hcm : (headerOf b name extras).CMethod = Uint16 ((b.drop 4).take 2) := rfl
  have hL := lenPrevious_eq z.previous
  by_cases hle : lenPrevious z.previous ≤ 26 + name.length + extras.length
  · have ht : trimPrevious z.previous (26 + name.length + extras.length)
        (4 + (26 + name.length + extras.length)) = Outcome.ret none := by
      unfold trimPrevious
      rw [if_pos hle]
    have hu : s3.under = tail := by
      rw [← hc3, Surface.content, hk3, List.drop_of_length_le (by omega), List.nil_append]
    rw [ht, if_pos hle]
    dsimp only
    rcases hmeth with h0 | h8
    · rw [hcm, h0]
      exact ⟨⟨s3.under, none⟩, rfl, by rw [ZipStream.content, hu]; rfl, rfl⟩
    · rw [hcm, h8]
      exact ⟨⟨s3.under, none⟩, rfl, by rw [ZipStream.content, hu]; rfl, rfl⟩
  · have hge : 4 + (26 + name.length + extras.length) ≤ lenPrevious z.previous := by omega
    obtain ⟨c, hzc⟩ : ∃ c, z.previous = some c := by
      cases hp : z.previous with
      | none => rw [hp] at hge; simp [lenPrevious] at hge
      | some c => exact ⟨c, rfl⟩
    have ht : trimPrevious z.previous (26 + name.length + extras.length)
        (4 + (26 + name.length + extras.length)) =
        Outcome.ret (some (c.drop (4 + (26 + name.length + extras.length)))) := by
      unfold trimPrevious
      rw [if_neg (by omega), if_neg (by omega), hzc]
      rfl
    rw [ht, if_neg hle]
    dsimp only
    have hcont : (⟨s3.under, some (c.drop (4 + (26 + name.length + extras.length)))⟩ :
        ZipStream (List UInt8)).content = tail := by
      rw [← hc3, Surface.content, hk3, hzc]
      rfl
    rcases hmeth with h0 | h8
    · rw [hcm, h0]
      exact ⟨_, rfl, hcont, by rw [hzc]; rfl⟩
    · rw [hcm, h8]
      exact ⟨_, rfl, hcont, by rw [hzc]; rfl⟩


/-- C1 (amended): an in-memory archive made of a stored entry's header, a payload in
which no signature begins, a Local File Header or Central Directory Header
signature and at least one more byte, read with a buffer of at least five
bytes: after `Next`, the bytes returned by the successive `Read` calls up to and
including the one that signals `io.EOF` are exactly the payload. -/
theorem stored_entry_roundtrip (m : Nat) (hm : 5 ≤ m) (b name extras P S rest : List UInt8)
    (hb : b.length = 26) (hname : name.length = Uint16 ((b.drop 22).take 2))
    (hpos : 1 ≤ name.length) (hextras : extras.length = Uint16 ((b.drop 24).take 2))
    (hmeth : Uint16 ((b.drop 4).take 2) = 0)
    (hSlen : S.length = 4) (hS : isHeader (Uint32 S) = true) (hrest : rest ≠ [])
    (hno : ∀ j, j < P.length → isBoundary (window (P ++ (S ++ rest)) j) = false) :
    ∃ z1 z2,
      ZipStream.Next sliceRead
          ⟨lfhBytes ++ (b ++ (name ++ (extras ++ (P ++ (S ++ rest))))), none⟩ =
        Outcome.ret (⟨some (headerOf b name extras), some PayloadStream.stored, none⟩, z1) ∧
      (∀ fuel, P.length < fuel → readEntry sliceRead m fuel z1 [] = Drained.eof P z2) ∧
      z2.content = S ++ rest := by
  obtain ⟨z1, hnext, hc1, hp1⟩ := Next_header_slice
    ⟨lfhBytes ++ (b ++ (name ++ (extras ++ (P ++ (S ++ rest))))), none⟩ b name extras
    (P ++ (S ++ rest)) rfl hb hname hpos hextras (Or.inl hmeth) (Or.inl (Nat.zero_le _))
  rw [hmeth, if_neg (by decide)] at hnext
  have hp1 : z1.previous = none := hp1.trans (if_pos (Nat.zero_le _))
  refine ⟨z1, ⟨(S ++ rest).drop (m - P.length % (m - 4)),
    some ((S ++ rest).take (m - P.length % (m - 4)))⟩, hnext, ?_, ?_⟩
  · intro fuel hfuel
    have h := readEntry_stored m hm S rest hSlen hS hrest P.length P (le_refl _) z1 [] fuel hc1
      (by rw [hp1]; exact Nat.zero_le _) hno hfuel
    rw [List.nil_append] at h
    exact h
  · exact List.take_append_drop _ _

/-! ## Walking an archive -/

theorem archiveBytes_boundary (m L : Nat) (es : List Entry) (rest : List UInt8)
    (hrest : rest ≠ []) (hok : entriesOk m L es (cdhBytes ++ rest)) :
    ∃ S R, archiveBytes es (cdhBytes ++ rest) = S ++ R ∧ S.length = 4 ∧
      isHeader (Uint32 S) = true ∧ R ≠ [] := by
  cases es with
  | nil => exact ⟨cdhBytes, rest, rfl, rfl, by decide, hrest⟩
  | cons e es =>
    refine ⟨lfhBytes, _, rfl, rfl, by decide, ?_⟩
    have hb : e.preamble.length = 26 := hok.1.1
    intro h
    rw [List.append_eq_nil] at h
    rw [h.1] at hb
    simp at hb

/-- C3 (amended): walking an in-memory archive of well-formed stored entries that ends
with a Central Directory Header signature and at least one more byte, with a
buffer of at least five bytes and under the conditions `entriesOk`, yields the
entries' headers and payloads in archive order, and then `io.EOF` from `Next`. -/
theorem readArchive_stored (m : Nat) (hm : 5 ≤ m) (rest : List UInt8) (hrest : rest ≠ [])
    (fuel : Nat) :
    ∀ (es : List Entry) (z : ZipStream (List UInt8)) (acc : List (LocalFileHeader × List UInt8))
      (n : Nat), z.content = archiveBytes es (cdhBytes ++ rest) →
      lenPrevious z.previous ≤ m →
      entriesOk m (lenPrevious z.previous) es (cdhBytes ++ rest) →
      (∀ e ∈ es, e.payload.length < fuel) → es.length < n →
      readArchive sliceRead m fuel n z acc =
        (acc ++ es.map (fun e => (headerOf e.preamble e.name e.extras, e.payload)),
          ArchiveEnd.endOfArchive) := by
  intro es
  induction es with
  | nil =>
    intro z acc n hc hL _ _ hn
    obtain ⟨n, rfl⟩ : ∃ k, n = k + 1 := ⟨n - 1, by simp at hn; omega⟩
    obtain ⟨hd, -, -, -, herr⟩ := surface_read_slice z.surface 4 (by omega)
    rw [surface_content, hc] at hd herr
    have hd4 : (z.surface.read sliceRead 4).data = cdhBytes := by
      rw [hd]; exact List.take_left' rfl
    have he4 : (z.surface.read sliceRead 4).err = none :=
      herr (by simp [archiveBytes, cdhBytes])
    have hnext : z.Next sliceRead = Outcome.ret (⟨none, none, some GoError.EOF⟩,
        ⟨(z.surface.read sliceRead 4).next.under, z.previous⟩) := by
      unfold ZipStream.Next
      dsimp only
      rw [if_neg (by simp [he4]), hd4, if_neg (by decide), if_pos (by decide)]
    unfold readArchive
    rw [hnext]
    simp
  | cons e es ih =>
    intro z acc n hc hL hok hfuel hn
    obtain ⟨n, rfl⟩ : ∃ k, n = k + 1 := ⟨n - 1, by simp at hn; omega⟩
    obtain ⟨⟨hb, hname, hpos, hextras, hmeth⟩, htrim, hno, hok'⟩ := hok
    obtain ⟨S, R, hF, hSlen, hS, hR⟩ := archiveBytes_boundary m _ es rest hrest hok'
    obtain ⟨z1, hnext, hc1, hp1⟩ := Next_header_slice z e.preamble e.name e.extras
      (e.payload ++ archiveBytes es (cdhBytes ++ rest)) hc hb hname hpos hextras (Or.inl hmeth)
      htrim
    rw [hmeth, if_neg (by decide)] at hnext
    have hL1 : lenPrevious z1.previous ≤ m := by
      rw [hp1]
      split
      · exact Nat.zero_le _
      · rw [lenPrevious_eq] at hL
        simp only [lenPrevious, List.length_drop]
        omega
    rw [hF] at hc1 hno
    have hdrain := readEntry_stored m hm S R hSlen hS hR e.payload.length e.payload (le_refl _)
      z1 [] fuel hc1 hL1 hno (hfuel e (List.mem_cons_self _ _))
    unfold readArchive
    rw [hnext]
    dsimp only
    rw [hdrain, List.nil_append, ← hF]
    dsimp only
    rw [ih ⟨(archiveBytes es (cdhBytes ++ rest)).drop (m - e.payload.length % (m - 4)),
        some ((archiveBytes es (cdhBytes ++ rest)).take (m - e.payload.length % (m - 4)))⟩
      (acc ++ [(headerOf e.preamble e.name e.extras, e.payload)]) n
      (List.take_append_drop _ _) ?_ ?_ (fun e' he' => hfuel e' (List.mem_cons_of_mem _ he'))
      (by simp at hn; omega)]
    · simp
    · simp only [lenPrevious, List.length_take]
      omega
    · simp only [lenPrevious, List.length_take]
      exact hok'

/-! ## A signature split across two reads -/

/-- `Read` after a pull that used up the carry buffer and found no signature: all
pulled bytes but the last four are returned with a nil error. -/
theorem Read_no_signature {σ : Type} (rd : σ → Nat → RdRes σ) (z : ZipStream σ) (m : Nat)
    (hclear : lenPrevious z.previous ≤ (z.surface.read rd m).data.length)
    (hscan : scan isBoundary (z.surface.read rd m).data 0
      ((z.surface.read rd m).data.length - 4) = none)
    (h4 : 4 ≤ (z.surface.read rd m).data.length) :
    z.Read rd m = Outcome.ret
      ⟨(z.surface.read rd m).data.take ((z.surface.read rd m).data.length - 4), none,
        ⟨(z.surface.read rd m).next.under,
          some ((z.surface.read rd m).data.drop ((z.surface.read rd m).data.length - 4))⟩⟩ := by
  unfold ZipStream.Read
  dsimp only
  generalize z.surface.read rd m = r at hclear hscan h4
  have hcl : clearPrevious z.previous r.data.length = none := by
    unfold clearPrevious
    rw [if_pos hclear]
  rw [hcl, hscan]
  dsimp only
  rw [if_neg (by omega)]
  rfl

/-- `Read` after a pull that used up the carry buffer and found a header signature
first at offset `i`: the bytes before `i` are returned with `io.EOF` and the
bytes from `i` on become the carry buffer. -/
theorem Read_signature {σ : Type} (rd : σ → Nat → RdRes σ) (z : ZipStream σ) (m i : Nat)
    (hclear : lenPrevious z.previous ≤ (z.surface.read rd m).data.length)
    (hscan : scan isBoundary (z.surface.read rd m).data 0
      ((z.surface.read rd m).data.length - 4) = some i)
    (hdd : window (z.surface.read rd m).data i ≠ dataDescriptorSignature) :
    z.Read rd m = Outcome.ret ⟨(z.surface.read rd m).data.take i, some GoError.EOF,
      ⟨(z.surface.read rd m).next.under, some ((z.surface.read rd m).data.drop i)⟩⟩ := by
  unfold ZipStream.Read
  dsimp only
  generalize z.surface.read rd m = r at hclear hscan hdd
  have hcl : clearPrevious z.previous r.data.length = none := by
    unfold clearPrevious
    rw [if_pos hclear]
  rw [hcl, hscan]
  dsimp only
  rw [if_neg (by simpa [window] using hdd)]
  rfl

theorem surface_of_carry {σ : Type} (u : σ) (c : List UInt8) (hc : c ≠ []) :
    (⟨u, some c⟩ : ZipStream σ).surface = Surface.appended c u := by
  cases c with
  | nil => exact absurd rfl hc
  | cons a c => rfl

theorem scriptRead_chunk (c : List UInt8) (rest : List (Except GoError (List UInt8))) (m : Nat)
    (hc : c.length ≤ m) : scriptRead (Except.ok c :: rest) m = ⟨c, none, rest⟩ := by
  show (⟨c.take m, none, if c.length ≤ m then rest else Except.ok (c.drop m) :: rest⟩ :
    RdRes (List (Except GoError (List UInt8)))) = _
  rw [List.take_of_length_le hc, if_pos hc]

theorem pull_carry_then_chunk (c1 c2 : List UInt8) (rest : List (Except GoError (List UInt8)))
    (m : Nat) (h1 : c1 ≠ []) (hlt : c1.length < m) (h2 : c2.length ≤ m - c1.length) :
    (Surface.read scriptRead (Surface.appended c1 (Except.ok c2 :: rest)) m).data = c1 ++ c2 ∧
    (Surface.read scriptRead (Surface.appended c1 (Except.ok c2 :: rest)) m).next.under = rest := by
  have hr1 : bytesReaderRead c1 m = ⟨c1, none, []⟩ := by
    unfold bytesReaderRead
    rw [if_neg (by rw [List.length_eq_zero]; exact h1), List.take_of_length_le (by omega),
      List.drop_of_length_le (by omega)]
  unfold Surface.read appendReader.Read
  dsimp only
  rw [hr1]
  dsimp only
  have hv1 : appendVisit m [] c1 none = Visit.more c1 := by
    unfold appendVisit
    rw [if_neg (by simp), if_neg (by simp; omega)]
    rfl
  rw [hv1]
  dsimp only
  rw [scriptRead_chunk c2 rest _ h2]
  dsimp only
  unfold appendVisit
  rw [if_neg (by simp)]
  by_cases hfull : (c1 ++ c2).length = m
  · rw [if_pos hfull]
    exact ⟨rfl, rfl⟩
  · rw [if_neg hfull]
    exact ⟨rfl, rfl⟩

/-- C2 (amended): the underlying stream delivers the payload `P` with the first `k`
bytes (1 to 3) of a header signature `S` in one read and the rest of `S` with
at least one more byte in the next; no signature begins inside `P`, the first
delivery has at least four bytes and the buffer takes each delivery whole.  Then
the first `Read` returns `P` without its last `4 - k` bytes and a nil error, the
second returns those `4 - k` bytes with `io.EOF`, and the carry buffer is then
`S` with the bytes after it: the two calls return exactly `P`. -/
theorem split_signature_detected (m k : Nat) (P S rest : List UInt8)
    (more : List (Except GoError (List UInt8)))
    (hk1 : 1 ≤ k) (hk3 : k ≤ 3) (hSlen : S.length = 4) (hS : isHeader (Uint32 S) = true)
    (hrest : rest ≠ []) (hno : noBoundaryIn P (S ++ rest)) (h4 : 4 ≤ P.length + k)
    (hm1 : P.length + k ≤ m) (hm2 : 4 + (4 - k) + rest.length ≤ m) :
    ZipStream.Read scriptRead
        ⟨Except.ok (P ++ S.take k) :: Except.ok (S.drop k ++ rest) :: more, none⟩ m =
      Outcome.ret ⟨P.take (P.length + k - 4), none,
        ⟨Except.ok (S.drop k ++ rest) :: more,
          some ((P ++ S.take k).drop (P.length + k - 4))⟩⟩ ∧
    ZipStream.Read scriptRead
        ⟨Except.ok (S.drop k ++ rest) :: more,
          some ((P ++ S.take k).drop (P.length + k - 4))⟩ m =
      Outcome.ret ⟨P.drop (P.length + k - 4), some GoError.EOF, ⟨more, some (S ++ rest)⟩⟩ := by
  have hrl : 0 < rest.length := List.length_pos.mpr hrest
  have hclen : (P ++ S.take k).length = P.length + k := by
    rw [List.length_append, List.length_take, hSlen]; omega
  have hF1 : P ++ S.take k = (P ++ (S ++ rest)).take (P.length + k) := by
    rw [List.take_append_eq_append_take, List.take_of_length_le (l := P) (by omega),
      show P.length + k - P.length = k by omega, List.take_append_of_le_length (by omega)]
  have hF2 : (P ++ S.take k).drop (P.length + k - 4) ++ (S.drop k ++ rest) =
      (P ++ (S ++ rest)).drop (P.length + k - 4) := by
    rw [← List.drop_append_of_le_length (by rw [hclen]; omega)]
    congr 1
    rw [List.append_assoc, ← List.append_assoc (S.take k), List.take_append_drop]
  have hw : window (P ++ (S ++ rest)) P.length = Uint32 S := by
    rw [window_append_left, List.take_left' hSlen]
  constructor
  · have hpull : (⟨Except.ok (P ++ S.take k) :: Except.ok (S.drop k ++ rest) :: more, none⟩ :
        ZipStream (List (Except GoError (List UInt8)))).surface.read scriptRead m =
        ⟨P ++ S.take k, none, Surface.direct (Except.ok (S.drop k ++ rest) :: more)⟩ := by
      show (⟨(scriptRead _ m).data, (scriptRead _ m).err, Surface.direct (scriptRead _ m).next⟩ :
        RdRes (Surface (List (Except GoError (List UInt8))))) = _
      rw [scriptRead_chunk _ _ m (by rw [hclen]; exact hm1)]
    have h := Read_no_signature scriptRead
      ⟨Except.ok (P ++ S.take k) :: Except.ok (S.drop k ++ rest) :: more, none⟩ m
      (by rw [hpull]; exact Nat.zero_le _)
      (by
        rw [hpull]
        dsimp only
        rw [scan_eq_none]
        intro j _ hj
        rw [hclen] at hj
        rw [hF1, window_take _ _ _ (by omega)]
        exact hno j (by omega))
      (by rw [hpull]; dsimp only; rw [hclen]; exact h4)
    rw [hpull] at h
    dsimp only at h
    rw [h, hclen, List.take_append_of_le_length (by omega)]
    rfl
  · have hc1 : ((P ++ S.take k).drop (P.length + k - 4)).length = 4 := by
      rw [List.length_drop, hclen]; omega
    have hne : (P ++ S.take k).drop (P.length + k - 4) ≠ [] := by
      intro h; rw [h] at hc1; simp at hc1
    have hsurf := surface_of_carry (Except.ok (S.drop k ++ rest) :: more) _ hne
    obtain ⟨hd, hu⟩ := pull_carry_then_chunk ((P ++ S.take k).drop (P.length + k - 4))
      (S.drop k ++ rest) more m hne (by omega)
      (by rw [hc1, List.length_append, List.length_drop, hSlen]; omega)
    rw [hF2] at hd
    have hdl : ((P ++ (S ++ rest)).drop (P.length + k - 4)).length = 4 - k + 4 + rest.length := by
      simp [hSlen]; omega
    have h := Read_signature scriptRead
      ⟨Except.ok (S.drop k ++ rest) :: more, some ((P ++ S.take k).drop (P.length + k - 4))⟩
      m (4 - k)
      (by rw [hsurf, hd, hdl]; simp only [lenPrevious]; omega)
      (by
        rw [hsurf, hd, hdl]
        apply scan_eq_some
        · omega
        · omega
        · rw [window_drop, show P.length + k - 4 + (4 - k) = P.length by omega, hw]
          exact isBoundary_of_isHeader _ hS
        · intro j _ hj
          rw [window_drop]
          exact hno _ (by omega))
      (by
        rw [hsurf, hd, window_drop, show P.length + k - 4 + (4 - k) = P.length by omega, hw]
        exact not_dd_of_isHeader _ hS)
    rw [hsurf, hd, hu] at h
    rw [h, List.drop_append_of_le_length (by omega),
      List.take_left' (by rw [List.length_drop]; omega),
      List.drop_left' (by rw [List.length_drop]; omega)]

/-! ## Evaluations on sample streams -/

/-- Witness for C4: a stored header with the one-byte name `a` and two extra bytes. -/
theorem readLocalFileHeader_decodes_fields_witness :
    ∃ lfh, readLocalFileHeader sliceRead (samplePreamble 0 1 2 ++ [97, 7, 9, 1]) =
        Outcome.ret (Except.ok (lfh, 26 + 1 + 2), [1]) ∧
      lfh.Version = 20 ∧ lfh.FileName = [97] ∧ lfh.Extras = [7, 9] :=
  ⟨_, readLocalFileHeader_decodes_fields sliceRead (samplePreamble 0 1 2 ++ [97, 7, 9, 1])
      [97, 7, 9, 1] [7, 9, 1] [1] (samplePreamble 0 1 2) [97] [7, 9]
      (by decide) (by decide) (by decide) (by decide) (by decide) (by decide) (by decide),
    by decide, rfl, rfl⟩

/-- C5 (counterexample): on a header with compression method 1, `Next` does not
return an error value: it panics. -/
theorem Next_method_one_panics :
    ZipStream.Next sliceRead ⟨lfhBytes ++ samplePreamble 1 1 0 ++ [97, 1, 2, 3], none⟩ =
      Outcome.panic (GoPanic.unknownMethod 1) := by
  with_unfolding_all decide

/-- Witness for C5 (amended): method 9, read through a carry buffer of two bytes. -/
theorem Next_unknown_method_panics_witness :
    ZipStream.Next sliceRead
        ⟨[0x03, 0x04] ++ samplePreamble 9 1 0 ++ [97, 1, 2, 3], some [0x50, 0x4b]⟩ =
      Outcome.panic (GoPanic.unknownMethod 9) :=
  Next_unknown_method_panics sliceRead
    ⟨[0x03, 0x04] ++ samplePreamble 9 1 0 ++ [97, 1, 2, 3], some [0x50, 0x4b]⟩
    ⟨localFileHeaderSignature, 20, 0, 9, 0, 0, 0, 0, 0, 1, 0, [97], [], false⟩ 27
    (Surface.appended [] [1, 2, 3])
    (by with_unfolding_all decide) (by with_unfolding_all decide)
    (by with_unfolding_all decide) (by with_unfolding_all rfl)
    (by with_unfolding_all decide) (by decide) (by decide)

/-- C6 (failing input): on a preamble whose `fileNameLength` is zero,
`readLocalFileHeader`, and with it `Next`, panics on the index expression
`FileName[len(FileName)-1]` instead of returning an error. -/
theorem readLocalFileHeader_empty_name_panics :
    readLocalFileHeader sliceRead (samplePreamble 0 0 0 ++ [1, 2, 3]) =
        Outcome.panic (GoPanic.indexOutOfRange (-1) 0) ∧
      ZipStream.Next sliceRead ⟨lfhBytes ++ samplePreamble 0 0 0 ++ [1, 2, 3], none⟩ =
        Outcome.panic (GoPanic.indexOutOfRange (-1) 0) := by
  constructor <;> with_unfolding_all rfl

/-- Witness for C8: the signature straddles a two-byte carry buffer and the stream. -/
theorem Next_centralDirectory_eof_witness :
    ZipStream.Next sliceRead ⟨[0x01, 0x02, 0, 0], some [0x50, 0x4b]⟩ =
      Outcome.ret (⟨none, none, some GoError.EOF⟩, ⟨[0, 0], some [0x50, 0x4b]⟩) :=
  Next_centralDirectory_eof.2 ⟨[0x01, 0x02, 0, 0], some [0x50, 0x4b]⟩ [0, 0] (by decide)

/-- Witness for C9: a stream of three bytes. -/
theorem Next_bad_signature_witness :
    ∃ e, e ≠ GoError.EOF ∧ ZipStream.Next sliceRead ⟨[0x50, 0x4b, 0x03], none⟩ =
      Outcome.ret (⟨none, none, some e⟩, ⟨[], none⟩) :=
  Next_bad_signature.2 ⟨[0x50, 0x4b, 0x03], none⟩ (Or.inl (by decide))

/-- C10 (counterexample): an upstream error during the preamble read comes back
wrapped, not as the same value; and `Read`, which never looks at the error of
its pull, panics when the underlying source fails with no byte delivered. -/
theorem upstream_error_not_verbatim :
    ZipStream.Next scriptRead ⟨[Except.ok lfhBytes, Except.error (GoError.upstream 7)], none⟩ =
        Outcome.ret (⟨none, none, some (GoError.headerRead (GoError.upstream 7))⟩, ⟨[], none⟩) ∧
      ZipStream.Read scriptRead ⟨[Except.error (GoError.upstream 7)], none⟩ 16 =
        Outcome.panic (GoPanic.sliceBounds (-4) 0) := by
  constructor <;> with_unfolding_all rfl

/-- Witness for C10 (amended): the signature read fails with an upstream error. -/
theorem Next_returns_read_errors_witness :
    ZipStream.Next scriptRead ⟨[Except.error (GoError.upstream 7)], none⟩ =
      Outcome.ret (⟨none, none, some (GoError.upstream 7)⟩, ⟨[], none⟩) :=
  (Next_returns_read_errors scriptRead ⟨[Except.error (GoError.upstream 7)], none⟩).1
    (GoError.upstream 7) (by decide) (by decide)

/-- Witness for C7: the stream ends inside the name. -/
theorem Next_truncated_header_witness :
    ∃ e z1, e ≠ GoError.EOF ∧
      ZipStream.Next sliceRead ⟨[0x03, 0x04] ++ samplePreamble 0 5 0 ++ [97, 98], some [0x50, 0x4b]⟩ =
        Outcome.ret (⟨none, none, some e⟩, z1) :=
  Next_truncated_header ⟨[0x03, 0x04] ++ samplePreamble 0 5 0 ++ [97, 98], some [0x50, 0x4b]⟩
    (samplePreamble 0 5 0 ++ [97, 98]) (by decide) (Or.inr (by decide))


/-- C1 (counterexample): with the Local File Header signature inside the payload the
read loop (4096-byte buffer) ends at once with no byte returned; with a one-byte
buffer the first `Read` panics on `p[len(p)-4:]`; with a four-byte buffer every
`Read` returns no byte and a nil error, so ten calls deliver nothing; and a
header with an empty name makes `Next` panic. -/
theorem stored_entry_not_every_archive :
    ZipStream.Next sliceRead
        ⟨lfhBytes ++ samplePreamble 0 1 0 ++ [97] ++ (lfhBytes ++ [1]) ++ cdhBytes ++ [0, 0], none⟩ =
      Outcome.ret (⟨some (headerOf (samplePreamble 0 1 0) [97] []), some PayloadStream.stored, none⟩,
        ⟨lfhBytes ++ [1] ++ cdhBytes ++ [0, 0], none⟩) ∧
    readEntry sliceRead 4096 10 ⟨lfhBytes ++ [1] ++ cdhBytes ++ [0, 0], none⟩ [] =
      Drained.eof [] ⟨[], some (lfhBytes ++ [1] ++ cdhBytes ++ [0, 0])⟩ ∧
    readEntry sliceRead 1 10 ⟨[104, 101, 108, 108, 111] ++ cdhBytes ++ [0, 0], none⟩ [] =
      Drained.panicked (GoPanic.sliceBounds (-3) 1) ∧
    readEntry sliceRead 4 10 ⟨[104, 101, 108, 108, 111] ++ cdhBytes ++ [0, 0], none⟩ [] =
      Drained.unfinished [] ⟨[111] ++ cdhBytes ++ [0, 0], some [104, 101, 108, 108]⟩ ∧
    ZipStream.Next sliceRead
        ⟨lfhBytes ++ samplePreamble 0 0 0 ++ [104, 101, 108, 108, 111] ++ cdhBytes ++ [0, 0], none⟩ =
      Outcome.panic (GoPanic.indexOutOfRange (-1) 0) := by
  refine ⟨?_, ?_, ?_, ?_, ?_⟩ <;> with_unfolding_all rfl

/-- Witness for C1 (amended): the payload `hello` read with a five-byte buffer. -/
theorem stored_entry_roundtrip_witness :
    ∃ z1 z2,
      ZipStream.Next sliceRead
          ⟨lfhBytes ++ (samplePreamble 0 1 0 ++ ([97] ++ ([] ++
            ([104, 101, 108, 108, 111] ++ (cdhBytes ++ [0]))))), none⟩ =
        Outcome.ret (⟨some (headerOf (samplePreamble 0 1 0) [97] []),
          some PayloadStream.stored, none⟩, z1) ∧
      (∀ fuel, [104, 101, 108, 108, 111].length < fuel →
        readEntry sliceRead 5 fuel z1 [] = Drained.eof [104, 101, 108, 108, 111] z2) ∧
      z2.content = cdhBytes ++ [0] :=
  stored_entry_roundtrip 5 (by decide) (samplePreamble 0 1 0) [97] [] [104, 101, 108, 108, 111]
    cdhBytes [0] (by decide) (by decide) (by decide) (by decide) (by decide) (by decide)
    (by decide) (by decide) (by decide)

/-- C2 (counterexample): with the Local File Header signature inside the payload the
first `Read` already signals `io.EOF` with no payload byte; with a one-byte
payload and two signature bytes in the first delivery, `Read` panics on
`p[len(p)-4:]`. -/
theorem split_signature_not_every_payload :
    ZipStream.Read scriptRead
        ⟨[Except.ok (lfhBytes ++ [1, 2] ++ cdhBytes.take 2), Except.ok (cdhBytes.drop 2 ++ [0, 0])],
          none⟩ 64 =
      Outcome.ret ⟨[], some GoError.EOF,
        ⟨[Except.ok (cdhBytes.drop 2 ++ [0, 0])], some (lfhBytes ++ [1, 2] ++ cdhBytes.take 2)⟩⟩ ∧
    ZipStream.Read scriptRead
        ⟨[Except.ok ([65] ++ cdhBytes.take 2), Except.ok (cdhBytes.drop 2 ++ [0, 0])], none⟩ 64 =
      Outcome.panic (GoPanic.sliceBounds (-1) 3) := by
  constructor <;> rfl

/-- Witness for C2 (amended): the payload `hello`, a Central Directory Header
signature split after two bytes, and a 64-byte buffer. -/
theorem split_signature_detected_witness :
    ZipStream.Read scriptRead
        ⟨Except.ok ([104, 101, 108, 108, 111] ++ cdhBytes.take 2) ::
          Except.ok (cdhBytes.drop 2 ++ [0]) :: [], none⟩ 64 =
      Outcome.ret ⟨[104, 101, 108, 108, 111].take ([104, 101, 108, 108, 111].length + 2 - 4), none,
        ⟨Except.ok (cdhBytes.drop 2 ++ [0]) :: [],
          some (([104, 101, 108, 108, 111] ++ cdhBytes.take 2).drop
            ([104, 101, 108, 108, 111].length + 2 - 4))⟩⟩ ∧
    ZipStream.Read scriptRead
        ⟨Except.ok (cdhBytes.drop 2 ++ [0]) :: [],
          some (([104, 101, 108, 108, 111] ++ cdhBytes.take 2).drop
            ([104, 101, 108, 108, 111].length + 2 - 4))⟩ 64 =
      Outcome.ret ⟨[104, 101, 108, 108, 111].drop ([104, 101, 108, 108, 111].length + 2 - 4),
        some GoError.EOF, ⟨[], some (cdhBytes ++ [0])⟩⟩ :=
  split_signature_detected 64 2 [104, 101, 108, 108, 111] cdhBytes [0] [] (by decide) (by decide)
    (by decide) (by decide) (by decide) (by unfold noBoundaryIn; decide) (by decide) (by decide)
    (by decide)

/-- C3 (counterexample): an entry whose payload holds a signature is cut short and the
walk then fails; with a 33-byte buffer the second `Next` of a two-entry archive
panics on `z.previous[totalDataRead:]`, the carry buffer being 28 bytes long and
the header 31; and with a three-byte buffer the first `Read` panics. -/
theorem readArchive_not_every_archive :
    readArchive sliceRead 4096 10 5 ⟨archiveBytes [sampleEntrySig] (cdhBytes ++ [0, 0]), none⟩ [] =
      ([(headerOf (samplePreamble 0 1 0) [97] [], [])],
        ArchiveEnd.failed (GoError.headerRead GoError.EOF)) ∧
    readArchive sliceRead 33 10 5
        ⟨archiveBytes [sampleEntryA, sampleEntryB] (cdhBytes ++ [0, 0]), none⟩ [] =
      ([(headerOf (samplePreamble 0 1 0) [97] [], [104, 101, 108, 108, 111])],
        ArchiveEnd.panicked (GoPanic.sliceBounds 31 28)) ∧
    readArchive sliceRead 3 10 5
        ⟨archiveBytes [sampleEntryA, sampleEntryB] (cdhBytes ++ [0, 0]), none⟩ [] =
      ([], ArchiveEnd.panicked (GoPanic.sliceBounds (-1) 3)) := by
  refine ⟨?_, ?_, ?_⟩ <;> with_unfolding_all rfl

/-- Witness for C3 (amended): the two-entry archive read with a nine-byte buffer. -/
theorem readArchive_stored_witness :
    readArchive sliceRead 9 6 3
        ⟨archiveBytes [sampleEntryA, sampleEntryB] (cdhBytes ++ [0, 0]), none⟩ [] =
      ([] ++ [sampleEntryA, sampleEntryB].map
          (fun e => (headerOf e.preamble e.name e.extras, e.payload)),
        ArchiveEnd.endOfArchive) :=
  readArchive_stored 9 (by decide) [0, 0] (by decide) 6 [sampleEntryA, sampleEntryB]
    ⟨archiveBytes [sampleEntryA, sampleEntryB] (cdhBytes ++ [0, 0]), none⟩ [] 3 rfl (by decide)
    (by
      simp only [entriesOk, Entry.wellFormed, noBoundaryIn, Entry.headerLength]
      decide)
    (by decide) (by decide)

/-! ## appendReader.Read -/

theorem bytesReaderRead_eq (L : List UInt8) (m : Nat) :
    bytesReaderRead L m = ⟨L.take m, if L = [] then some GoError.EOF else none, L.drop m⟩ := by
  cases L <;> simp [bytesReaderRead]

theorem appendVisit_ok (m : Nat) (f d : List UInt8) (e : Option GoError)
    (he : e = none ∨ e = some GoError.EOF) :
    appendVisit m f d e =
      if (f ++ d).length = m then Visit.done (f ++ d) none else Visit.more (f ++ d) := by
  unfold appendVisit
  rw [if_neg (by rcases he with h | h <;> simp [h])]

theorem appendVisit_error (m : Nat) (f d : List UInt8) (e : Option GoError)
    (he : e ≠ none ∧ e ≠ some GoError.EOF) : appendVisit m f d e = Visit.done [] e := by
  unfold appendVisit
  rw [if_pos he]

/-- C11 (amended): for every leftover slice `L`, buffer length `m` and underlying
reader, `AppendReader(bytes.NewReader(L), u).Read` first takes `min(len(L), m)`
leftover bytes; if that fills the buffer the underlying reader is not read and
its state is unchanged; otherwise it is read once with room `m - len(L)`, and
when that read returns a nil or `io.EOF` error its bytes follow the leftover
bytes and the count is `len(L)` plus their number (with a nil error when the
buffer is full and `io.EOF` otherwise); when it returns another error, the
count is 0 and the error is that one. -/
theorem appendReader_Read_fill {σ : Type} (rd : σ → Nat → RdRes σ) (L : List UInt8) (u : σ)
    (m : Nat) :
    (m ≤ L.length → appendReader.Read rd L u m = ⟨L.take m, none, (L.drop m, u)⟩) ∧
    (L.length < m →
      (((rd u (m - L.length)).err = none ∨ (rd u (m - L.length)).err = some GoError.EOF) →
        appendReader.Read rd L u m =
          ⟨L ++ (rd u (m - L.length)).data,
            if (L ++ (rd u (m - L.length)).data).length = m then none else some GoError.EOF,
            ([], (rd u (m - L.length)).next)⟩) ∧
      (((rd u (m - L.length)).err ≠ none ∧ (rd u (m - L.length)).err ≠ some GoError.EOF) →
        appendReader.Read rd L u m =
          ⟨[], (rd u (m - L.length)).err, ([], (rd u (m - L.length)).next)⟩)) := by
  have hv1 : appendVisit m [] (L.take m) (if L = [] then some GoError.EOF else none) =
      if (L.take m).length = m then Visit.done (L.take m) none else Visit.more (L.take m) := by
    rw [appendVisit_ok _ _ _ _ (by split <;> simp)]
    rfl
  constructor
  · intro h
    unfold appendReader.Read
    dsimp only
    rw [bytesReaderRead_eq]
    dsimp only
    rw [hv1, if_pos (by rw [List.length_take]; omega)]
  · intro h
    have hstep : appendReader.Read rd L u m =
        match appendVisit m L (rd u (m - L.length)).data (rd u (m - L.length)).err with
        | Visit.done d e => ⟨d, e, ([], (rd u (m - L.length)).next)⟩
        | Visit.more f2 => ⟨f2, some GoError.EOF, ([], (rd u (m - L.length)).next)⟩ := by
      unfold appendReader.Read
      dsimp only
      rw [bytesReaderRead_eq]
      dsimp only
      rw [hv1, if_neg (by rw [List.length_take]; omega)]
      dsimp only
      rw [List.take_of_length_le (by omega), List.drop_of_length_le (by omega)]
    rw [hstep]
    constructor
    · intro he
      rw [appendVisit_ok _ _ _ _ he]
      by_cases hfull : (L ++ (rd u (m - L.length)).data).length = m
      · rw [if_pos hfull, if_pos hfull]
      · rw [if_neg hfull, if_neg hfull]
    · intro he
      rw [appendVisit_error _ _ _ _ he]

/-- C11 (counterexample): the underlying read fails with an upstream error after two
leftover bytes were copied: the returned count is 0, not 2. -/
theorem appendReader_Read_count_on_error :
    appendReader.Read scriptRead [1, 2] [Except.error (GoError.upstream 7)] 5 =
      ⟨[], some (GoError.upstream 7), ([], [])⟩ := by
  rfl

/-- Witness for C11 (amended): two leftover bytes and a four-byte chunk, buffer of
five. -/
theorem appendReader_Read_fill_witness :
    appendReader.Read scriptRead [1, 2] [Except.ok [3, 4, 5, 6]] 5 =
      ⟨[1, 2, 3, 4, 5], none, ([], [Except.ok [6]])⟩ :=
  ((appendReader_Read_fill scriptRead [1, 2] [Except.ok [3, 4, 5, 6]] 5).2 (by decide)).1
    (Or.inl rfl)

/-- C12 (failing input): two leftover bytes, then an underlying reader that hands out
one byte with a nil error and has two more bytes for a later read; with a
buffer of five, `appendReader.Read` returns the three bytes together with
`io.EOF`. -/
theorem appendReader_Read_eof_on_partial_fill :
    appendReader.Read scriptRead [1, 2] [Except.ok [3], Except.ok [4, 5]] 5 =
      ⟨[1, 2, 3], some GoError.EOF, ([], [Except.ok [4, 5]])⟩ := by
  rfl

/-! ## Data descriptors -/

/-- `Read` after a pull whose first signature, at offset `i`, is a data descriptor. -/
theorem Read_of_descriptor {σ : Type} (rd : σ → Nat → RdRes σ) (z : ZipStream σ) (m i : Nat)
    (hscan : scan isBoundary (z.surface.read rd m).data 0
      ((z.surface.read rd m).data.length - 4) = some i)
    (hdd : window (z.surface.read rd m).data i = dataDescriptorSignature) :
    z.Read rd m =
      match scan isHeader (descriptorWindow rd z m i).data 0
          ((descriptorWindow rd z m i).data.length - 4) with
      | some j =>
        Outcome.ret ⟨(z.surface.read rd m).data.take i, some GoError.EOF,
          ⟨(descriptorWindow rd z m i).next.under,
            some (carry (clearPrevious (some (descriptorCarry rd z m i))
              (descriptorWindow rd z m i).data.length) (descriptorWindow rd z m i).data j
              (descriptorWindow rd z m i).data.length)⟩⟩
      | none => Outcome.ret ⟨[], some GoError.invalidRead,
          ⟨(descriptorWindow rd z m i).next.under,
            clearPrevious (some (descriptorCarry rd z m i))
              (descriptorWindow rd z m i).data.length⟩⟩ := by
  unfold ZipStream.Read
  dsimp only
  rw [hscan]
  dsimp only
  rw [if_pos (by simpa [window] using hdd)]
  rfl

/-- C14: whenever the first signature that `Read` finds in the pulled bytes is a Data
Descriptor signature and the bytes of the 40-byte read that follows hold no Local
File Header or Central Directory Header signature at any offset, `Read` returns
the byte count 0 together with the error `invalid read`, which is not `io.EOF`. -/
theorem Read_descriptor_without_boundary {σ : Type} (rd : σ → Nat → RdRes σ) (z : ZipStream σ)
    (m i : Nat)
    (hscan : scan isBoundary (z.surface.read rd m).data 0
      ((z.surface.read rd m).data.length - 4) = some i)
    (hdd : window (z.surface.read rd m).data i = dataDescriptorSignature)
    (hnone : ∀ j, j + 4 ≤ (descriptorWindow rd z m i).data.length →
      isHeader (window (descriptorWindow rd z m i).data j) = false) :
    ∃ z1, z.Read rd m = Outcome.ret ⟨[], some GoError.invalidRead, z1⟩ ∧
      GoError.invalidRead ≠ GoError.EOF := by
  rw [Read_of_descriptor rd z m i hscan hdd,
    (scan_eq_none isHeader _ _ 0).mpr (fun k _ hk => hnone k (by omega))]
  exact ⟨_, rfl, by simp⟩

/-- The underlying reader holds the content after the carried bytes. -/
theorem surface_under_eq (s : Surface (List UInt8)) :
    s.under = s.content.drop s.carried.length := by
  unfold Surface.content
  rw [List.drop_left]

/-- C13 (amended): the stream holds payload bytes `P` with no signature beginning in
them, a data descriptor `D` that starts with the Data Descriptor signature, is
shorter than 36 bytes and in which no header signature begins, a header
signature `S`, and at least one byte `T` after it.  A `Read` whose buffer is
longer than `P` by more than four bytes and at least as long as the carry buffer
returns exactly `P` with `io.EOF`, and leaves a carry buffer of more than four
bytes such that the carry followed by the unread stream is `S` and the bytes
after it: the descriptor is returned to no one and the next `Next` starts at `S`. -/
theorem Read_skips_descriptor (z : ZipStream (List UInt8)) (m : Nat) (P D S T : List UInt8)
    (hc : z.content = P ++ (D ++ (S ++ T))) (hL : lenPrevious z.previous ≤ m)
    (hm : P.length + 4 < m) (hD : D.take 4 = ddBytes) (hD40 : D.length + 4 < 40)
    (hSlen : S.length = 4) (hS : isHeader (Uint32 S) = true) (hT : T ≠ [])
    (hnoP : ∀ j, j < P.length → isBoundary (window (P ++ (D ++ (S ++ T))) j) = false)
    (hnoD : ∀ j, j < D.length → isHeader (window (D ++ (S ++ T)) j) = false) :
    ∃ c u, z.Read sliceRead m = Outcome.ret ⟨P, some GoError.EOF, ⟨u, some c⟩⟩ ∧
      c ++ u = S ++ T ∧ 4 < c.length := by
  have hTl : 0 < T.length := List.length_pos.mpr hT
  have hD4 : 4 ≤ D.length := by
    have h := congrArg List.length hD
    rw [List.length_take] at h
    simp [ddBytes] at h
    omega
  obtain ⟨hd, hu, hcl⟩ := Read_pull z m (by omega) hL
  rw [hc] at hd hu
  have hn : ((P ++ (D ++ (S ++ T))).take m).length =
      min m (P.length + (D.length + (4 + T.length))) := by
    simp [hSlen]
  have hwP : window (P ++ (D ++ (S ++ T))) P.length = dataDescriptorSignature := by
    rw [window_append_left, List.take_append_of_le_length hD4, hD]
    decide
  have hscan : scan isBoundary (z.surface.read sliceRead m).data 0
      ((z.surface.read sliceRead m).data.length - 4) = some P.length := by
    rw [hd]
    apply scan_eq_some
    · omega
    · rw [hn]; omega
    · rw [window_take _ _ _ (by omega), hwP]; decide
    · intro k _ hk
      rw [window_take _ _ _ (by omega)]
      exact hnoP k hk
  have hdd : window (z.surface.read sliceRead m).data P.length = dataDescriptorSignature := by
    rw [hd, window_take _ _ _ (by omega), hwP]
  -- the carry buffer and the 40-byte read
  have hcarry : descriptorCarry sliceRead z m P.length =
      ((P ++ (D ++ (S ++ T))).take m).drop P.length := by
    unfold descriptorCarry
    rw [hcl, hd]
    rfl
  have hcl1 : 4 < (descriptorCarry sliceRead z m P.length).length := by
    rw [hcarry, List.length_drop, hn]; omega
  have hz2 : (⟨(z.surface.read sliceRead m).next.under,
      some (descriptorCarry sliceRead z m P.length)⟩ : ZipStream (List UInt8)).content =
      D ++ (S ++ T) := by
    show descriptorCarry sliceRead z m P.length ++ (z.surface.read sliceRead m).next.under = _
    rw [hcarry, hu, ← List.drop_append_of_le_length (by rw [hn]; omega), List.take_append_drop,
      List.drop_left]
  obtain ⟨hd2, hk2, hn2, -, -⟩ := surface_read_slice
    (⟨(z.surface.read sliceRead m).next.under,
      some (descriptorCarry sliceRead z m P.length)⟩ : ZipStream (List UInt8)).surface 40
    (by omega)
  rw [surface_content, hz2] at hd2 hn2
  rw [surface_carried] at hk2
  change (descriptorWindow sliceRead z m P.length).data = _ at hd2
  change (descriptorWindow sliceRead z m P.length).next.content = _ at hn2
  change (descriptorWindow sliceRead z m P.length).next.carried =
    (descriptorCarry sliceRead z m P.length).drop 40 at hk2
  have hn2l : ((D ++ (S ++ T)).take 40).length = min 40 (D.length + (4 + T.length)) := by
    simp [hSlen]
  have hwD : window (D ++ (S ++ T)) D.length = Uint32 S := by
    rw [window_append_left, List.take_left' hSlen]
  have hscan2 : scan isHeader (descriptorWindow sliceRead z m P.length).data 0
      ((descriptorWindow sliceRead z m P.length).data.length - 4) = some D.length := by
    rw [hd2]
    apply scan_eq_some
    · omega
    · rw [hn2l]; omega
    · rw [window_take _ _ _ (by omega), hwD]; exact hS
    · intro k _ hk
      rw [window_take _ _ _ (by omega)]
      exact hnoD k hk
  have hX : carry (clearPrevious (some (descriptorCarry sliceRead z m P.length))
      (descriptorWindow sliceRead z m P.length).data.length)
      (descriptorWindow sliceRead z m P.length).data D.length
      (descriptorWindow sliceRead z m P.length).data.length =
      (descriptorWindow sliceRead z m P.length).data.drop D.length ++
        (descriptorWindow sliceRead z m P.length).next.carried := by
    unfold clearPrevious
    by_cases hge : (descriptorWindow sliceRead z m P.length).data.length ≥
        lenPrevious (some (descriptorCarry sliceRead z m P.length))
    · have hk0 : (descriptorCarry sliceRead z m P.length).drop 40 = [] := by
        apply List.drop_of_length_le
        simp only [lenPrevious] at hge
        rw [hd2, hn2l] at hge
        omega
      rw [if_pos hge, hk2, hk0, List.append_nil]
      rfl
    · rw [if_neg hge, hk2]
      simp only [lenPrevious] at hge
      rw [hd2, hn2l] at hge
      have hcle := congrArg List.length hz2
      change (descriptorCarry sliceRead z m P.length ++ _).length = _ at hcle
      rw [List.length_append, List.length_append, List.length_append, hSlen] at hcle
      have h40 : (descriptorWindow sliceRead z m P.length).data.length = 40 := by
        rw [hd2, hn2l]; omega
      show _ ++ (descriptorCarry sliceRead z m P.length).drop _ = _
      rw [h40]
  rw [Read_of_descriptor sliceRead z m P.length hscan hdd, hscan2]
  dsimp only
  rw [hX]
  refine ⟨(descriptorWindow sliceRead z m P.length).data.drop D.length ++
      (descriptorWindow sliceRead z m P.length).next.carried,
    (descriptorWindow sliceRead z m P.length).next.under, ?_, ?_, ?_⟩
  · rw [hd, List.take_take, Nat.min_eq_left (by omega), List.take_left]
  · have hcu : (descriptorWindow sliceRead z m P.length).next.carried ++
        (descriptorWindow sliceRead z m P.length).next.under = List.drop 40 (D ++ (S ++ T)) :=
      hn2
    rw [List.append_assoc, hcu, hd2, ← List.drop_append_of_le_length (by rw [hn2l]; omega),
      List.take_append_drop, List.drop_left]
  · rw [List.length_append, List.length_drop, hd2, hn2l]
    omega

/-- Witness for C14: three payload bytes and a 16-byte data descriptor at the end of
the stream. -/
theorem Read_descriptor_without_boundary_witness :
    ∃ z1, ZipStream.Read sliceRead
        ⟨[1, 2, 3] ++ ddBytes ++ [0, 0, 0, 0, 0, 0, 0, 0, 0, 0, 0, 0], none⟩ 64 =
      Outcome.ret ⟨[], some GoError.invalidRead, z1⟩ ∧ GoError.invalidRead ≠ GoError.EOF :=
  Read_descriptor_without_boundary sliceRead
    ⟨[1, 2, 3] ++ ddBytes ++ [0, 0, 0, 0, 0, 0, 0, 0, 0, 0, 0, 0], none⟩ 64 3 (by rfl) (by rfl)
    (by
      intro j hj
      have hdata : (descriptorWindow sliceRead
          ⟨[1, 2, 3] ++ ddBytes ++ [0, 0, 0, 0, 0, 0, 0, 0, 0, 0, 0, 0], none⟩ 64 3).data =
          ddBytes ++ [0, 0, 0, 0, 0, 0, 0, 0, 0, 0, 0, 0] := by rfl
      rw [hdata] at hj ⊢
      have hj13 : j < 13 := by
        simp [ddBytes] at hj
        omega
      interval_cases j <;> rfl)

/-- Witness for C13 (amended): three payload bytes, a 16-byte data descriptor, a Local
File Header signature and one more byte. -/
theorem Read_skips_descriptor_witness :
    ∃ c u, ZipStream.Read sliceRead
        ⟨[1, 2, 3] ++ ((ddBytes ++ [0, 0, 0, 0, 5, 0, 0, 0, 5, 0, 0, 0]) ++ (lfhBytes ++ [20])),
          none⟩ 64 =
      Outcome.ret ⟨[1, 2, 3], some GoError.EOF, ⟨u, some c⟩⟩ ∧
      c ++ u = lfhBytes ++ [20] ∧ 4 < c.length :=
  Read_skips_descriptor
    ⟨[1, 2, 3] ++ ((ddBytes ++ [0, 0, 0, 0, 5, 0, 0, 0, 5, 0, 0, 0]) ++ (lfhBytes ++ [20])), none⟩
    64 [1, 2, 3] (ddBytes ++ [0, 0, 0, 0, 5, 0, 0, 0, 5, 0, 0, 0]) lfhBytes [20] (by rfl)
    (by decide) (by decide) (by rfl) (by decide) (by rfl) (by rfl) (by decide) (by decide)
    (by decide)

/-- C13 (counterexample): a data descriptor whose CRC-32 field holds the bytes of the
Local File Header signature: `Read` returns the payload with `io.EOF`, and the
carry buffer starts inside the descriptor, eight bytes before the Central
Directory Header signature that follows it.  And when the stream ends right
after the following signature, the scan of the 40-byte read stops before the
last window and `Read` returns `invalid read`. -/
theorem Read_descriptor_not_every_descriptor :
    ZipStream.Read sliceRead
        ⟨[1, 2, 3] ++ ((ddBytes ++ lfhBytes ++ [5, 0, 0, 0, 5, 0, 0, 0]) ++ (cdhBytes ++ [20])),
          none⟩ 64 =
      Outcome.ret ⟨[1, 2, 3], some GoError.EOF,
        ⟨[], some (lfhBytes ++ [5, 0, 0, 0, 5, 0, 0, 0] ++ (cdhBytes ++ [20]))⟩⟩ ∧
    ZipStream.Read sliceRead
        ⟨[1, 2, 3] ++ ((ddBytes ++ [0, 0, 0, 0, 5, 0, 0, 0, 5, 0, 0, 0]) ++ cdhBytes), none⟩ 64 =
      Outcome.ret ⟨[], some GoError.invalidRead, ⟨[], none⟩⟩ := by
  constructor <;> rfl

/-! ## The directory flag -/

/-- A header returned by `readLocalFileHeader` has a non-empty name and its
`IsDirectory` flag is the test of the last name byte against `/`. -/
theorem readLocalFileHeader_ok_last {τ : Type} (read : τ → Nat → RdRes τ) (reader : τ)
    (lfh : LocalFileHeader) (tdr : Nat) (s : τ)
    (h : readLocalFileHeader read reader = Outcome.ret (Except.ok (lfh, tdr), s)) :
    ∃ last, lfh.FileName.getLast? = some last ∧ lfh.IsDirectory = decide (last = 47) := by
  unfold readLocalFileHeader at h
  dsimp only at h
  generalize read reader 26 = r0 at h
  cases he0 : r0.err with
  | some e0 => rw [he0] at h; cases h
  | none =>
    rw [he0] at h
    dsimp only at h
    by_cases hl : r0.data.length ≠ 26
    · rw [if_pos hl] at h; cases h
    rw [if_neg hl] at h
    generalize decodePreamble r0.data = lfh0 at h
    generalize (if lfh0.FileNameLength ≠ 0 then read r0.next lfh0.FileNameLength
      else ⟨[], none, r0.next⟩) = r1 at h
    cases he1 : r1.err with
    | some e1 => rw [he1] at h; cases h
    | none =>
      rw [he1] at h
      dsimp only at h
      by_cases hn : lfh0.FileNameLength ≠ 0 ∧ r1.data.length ≠ lfh0.FileNameLength
      · rw [if_pos hn] at h; cases h
      rw [if_neg hn] at h
      generalize (if lfh0.ExtrasLength ≠ 0 then read r1.next lfh0.ExtrasLength
        else ⟨[], none, r1.next⟩) = r2 at h
      cases he2 : r2.err with
      | some e2 => rw [he2] at h; cases h
      | none =>
        rw [he2] at h
        dsimp only at h
        by_cases hx : lfh0.ExtrasLength ≠ 0 ∧ r2.data.length ≠ lfh0.ExtrasLength
        · rw [if_pos hx] at h; cases h
        rw [if_neg hx] at h
        cases hlast : r1.data.getLast? with
        | none => rw [hlast] at h; cases h
        | some last =>
          rw [hlast] at h
          dsimp only at h
          injection h with h
          injection h with h1 h2
          injection h1 with h1
          injection h1 with h1 h3
          subst h1
          exact ⟨last, hlast, rfl⟩

/-- A header returned by `Next` was returned by `readLocalFileHeader`. -/
theorem Next_header_inv {σ : Type} (rd : σ → Nat → RdRes σ) (z z1 : ZipStream σ)
    (lfh : LocalFileHeader) (st : Option PayloadStream) (e : Option GoError)
    (h : z.Next rd = Outcome.ret (⟨some lfh, st, e⟩, z1)) :
    ∃ tdr s, readLocalFileHeader (Surface.read rd) (z.surface.read rd 4).next =
      Outcome.ret (Except.ok (lfh, tdr), s) := by
  unfold ZipStream.Next at h
  dsimp only at h
  generalize z.surface.read rd 4 = r at h ⊢
  by_cases h1 : r.err ≠ none ∧ r.err ≠ some GoError.EOF
  · rw [if_pos h1] at h; cases h
  rw [if_neg h1] at h
  by_cases h2 : r.data.length ≠ 4
  · rw [if_pos h2] at h; cases h
  rw [if_neg h2] at h
  by_cases h3 : Uint32 r.data = directoryHeaderSignature
  · rw [if_pos h3] at h; cases h
  rw [if_neg h3] at h
  by_cases h4 : Uint32 r.data = localFileHeaderSignature
  · rw [if_pos h4] at h
    generalize readLocalFileHeader (Surface.read rd) r.next = o at h ⊢
    match o, h with
    | Outcome.panic q, h => cases h
    | Outcome.ret (Except.error e, s), h => cases h
    | Outcome.ret (Except.ok (lfh2, tdr), s), h =>
      dsimp only at h
      generalize trimPrevious z.previous tdr (r.data.length + tdr) = t at h
      match t, h with
      | Outcome.panic q, h => cases h
      | Outcome.ret previous, h =>
        dsimp only at h
        split at h
        · injection h with h
          injection h with h1 h2
          injection h1 with h1
          injection h1 with h1
          subst h1
          exact ⟨tdr, s, rfl⟩
        · injection h with h
          injection h with h1 h2
          injection h1 with h1
          injection h1 with h1
          subst h1
          exact ⟨tdr, s, rfl⟩
        · cases h
  · rw [if_neg h4] at h; cases h

/-- C15: for every header that `readLocalFileHeader` returns without an error, and
for every header that `Next` returns, `IsDirectory` is true if and only if the
last byte of `FileName` is `/` (byte 47). -/
theorem IsDirectory_iff_trailing_slash {σ τ : Type} (read : τ → Nat → RdRes τ) (reader : τ)
    (rd : σ → Nat → RdRes σ) (z : ZipStream σ) (lfh : LocalFileHeader)
    (h : (∃ tdr s, readLocalFileHeader read reader = Outcome.ret (Except.ok (lfh, tdr), s)) ∨
      (∃ st e z1, z.Next rd = Outcome.ret (⟨some lfh, st, e⟩, z1))) :
    lfh.IsDirectory = true ↔ lfh.FileName.getLast? = some 47 := by
  have key : ∀ {ρ : Type} (read : ρ → Nat → RdRes ρ) (reader : ρ) (tdr : Nat) (s : ρ),
      readLocalFileHeader read reader = Outcome.ret (Except.ok (lfh, tdr), s) →
      (lfh.IsDirectory = true ↔ lfh.FileName.getLast? = some 47) := by
    intro ρ read reader tdr s h0
    obtain ⟨last, h1, h2⟩ := readLocalFileHeader_ok_last read reader lfh tdr s h0
    rw [h1, h2]
    simp
  rcases h with ⟨tdr, s, h0⟩ | ⟨st, e, z1, h0⟩
  · exact key read reader tdr s h0
  · obtain ⟨tdr, s, h1⟩ := Next_header_inv rd z z1 lfh st e h0
    exact key _ _ tdr s h1

/-- Witness for C15: `Next` on an in-memory stored entry named `d/`. -/
theorem IsDirectory_iff_trailing_slash_witness :
    (headerOf (samplePreamble 0 2 0) [100, 47] []).IsDirectory = true ↔
      (headerOf (samplePreamble 0 2 0) [100, 47] []).FileName.getLast? = some 47 :=
  IsDirectory_iff_trailing_slash sliceRead ([] : List UInt8) sliceRead
    ⟨lfhBytes ++ samplePreamble 0 2 0 ++ [100, 47] ++ [1, 2, 3], none⟩
    (headerOf (samplePreamble 0 2 0) [100, 47] [])
    (Or.inr ⟨some PayloadStream.stored, none, ⟨[1, 2, 3], none⟩, by with_unfolding_all rfl⟩)

/-! ## Boundaries, carry buffer and repeated calls -/

/-- A read that the carry buffer can serve alone takes its first bytes and leaves the
underlying reader untouched. -/
theorem surface_read_within_carry {σ : Type} (rd : σ → Nat → RdRes σ) (u : σ) (c : List UInt8)
    (m : Nat) (hc : c ≠ []) (hm : m ≤ c.length) :
    (⟨u, some c⟩ : ZipStream σ).surface.read rd m =
      ⟨c.take m, none, Surface.appended (c.drop m) u⟩ := by
  rw [surface_of_carry u c hc]
  unfold Surface.read appendReader.Read
  dsimp only
  rw [bytesReaderRead_eq, if_neg hc]
  dsimp only
  rw [appendVisit_ok _ _ _ _ (Or.inl rfl), if_pos (by rw [List.nil_append, List.length_take]; omega)]
  rfl

/-- A read on an empty carry buffer is a read of the underlying reader. -/
theorem surface_read_no_carry {σ : Type} (rd : σ → Nat → RdRes σ) (z : ZipStream σ) (m : Nat)
    (hp : lenPrevious z.previous = 0) :
    z.surface.read rd m = ⟨(rd z.Reader m).data, (rd z.Reader m).err,
      Surface.direct (rd z.Reader m).next⟩ := by
  have hs : z.surface = Surface.direct z.Reader := by
    unfold ZipStream.surface
    cases h : z.previous with
    | none => rfl
    | some c =>
      cases c with
      | nil => rfl
      | cons a l => rw [h] at hp; simp [lenPrevious] at hp
  rw [hs]
  rfl

/-- C17 (amended): for every reader and buffer length, when the pulled bytes `d` hold a
Local File Header or Central Directory Header signature at offset `i` with at
least one more byte of `d` after it (`i + 4 < len(d)`), and no recognized
signature begins before `i`, `Read` returns exactly `d[0..i)` with `io.EOF`, and
the new carry buffer is `d[i..]` followed by the bytes of the old carry buffer
that were not pulled in this call. -/
theorem Read_header_match {σ : Type} (rd : σ → Nat → RdRes σ) (z : ZipStream σ) (m i : Nat)
    (hi : i + 4 < (z.surface.read rd m).data.length)
    (hsig : isHeader (window (z.surface.read rd m).data i) = true)
    (hfirst : ∀ k, k < i → isBoundary (window (z.surface.read rd m).data k) = false) :
    z.Read rd m = Outcome.ret ⟨(z.surface.read rd m).data.take i, some GoError.EOF,
      ⟨(z.surface.read rd m).next.under,
        some ((z.surface.read rd m).data.drop i ++
          (z.previous.getD []).drop (z.surface.read rd m).data.length)⟩⟩ := by
  have hscan : scan isBoundary (z.surface.read rd m).data 0
      ((z.surface.read rd m).data.length - 4) = some i :=
    scan_eq_some isBoundary _ _ 0 i (by omega) (by omega) (isBoundary_of_isHeader _ hsig)
      (fun k _ hk => hfirst k hk)
  have hdd := not_dd_of_isHeader _ hsig
  unfold ZipStream.Read
  dsimp only
  generalize z.surface.read rd m = r at hscan hdd
  rw [hscan]
  dsimp only
  rw [if_neg (by simpa [window] using hdd)]
  unfold clearPrevious
  by_cases hge : r.data.length ≥ lenPrevious z.previous
  · have h0 : (z.previous.getD []).drop r.data.length = [] :=
      List.drop_of_length_le (by rw [← lenPrevious_eq]; exact hge)
    rw [if_pos hge, h0, List.append_nil]
    rfl
  · rw [if_neg hge]
    cases hp : z.previous with
    | none => rw [hp] at hge; simp [lenPrevious] at hge
    | some c => rfl

/-- Witness for C17 (amended): a ten-byte carry buffer read with an eight-byte buffer;
the signature starts at offset 2 and the two unpulled carry bytes follow it. -/
theorem Read_header_match_witness :
    ZipStream.Read sliceRead ⟨[9, 9], some ([1, 2] ++ cdhBytes ++ [20, 0, 20, 0])⟩ 8 =
      Outcome.ret ⟨[1, 2], some GoError.EOF,
        ⟨[9, 9], some (cdhBytes ++ [20, 0] ++ [20, 0])⟩⟩ :=
  Read_header_match sliceRead ⟨[9, 9], some ([1, 2] ++ cdhBytes ++ [20, 0, 20, 0])⟩ 8 2
    (by decide) (by decide) (by decide)

/-- C17 (counterexample): the pulled bytes end with the Central Directory Header
signature; the scan stops before the last window, so `Read` returns the three
payload bytes with a nil error and holds the signature back in the carry
buffer. -/
theorem Read_signature_in_last_window :
    ZipStream.Read sliceRead ⟨[1, 2, 3] ++ cdhBytes ++ [20, 0, 20, 0], none⟩ 7 =
      Outcome.ret ⟨[1, 2, 3], none, ⟨[20, 0, 20, 0], some cdhBytes⟩⟩ := by
  rfl

/-- C16 (failing input): a 31-byte header (signature, preamble, one-byte name) of which
the carry buffer holds the first 31, 30, 29, 28 or 27 bytes.  With 31 or 27
bytes `Next` returns the header; with 30, 29 or 28 bytes the test
`tdr >= len(z.previous)` fails and the slice expression
`z.previous[totalDataRead:]` panics. -/
theorem Next_panics_on_short_carry :
    ZipStream.Next sliceRead ⟨[1, 2, 3], some (lfhBytes ++ samplePreamble 0 1 0 ++ [97])⟩ =
      Outcome.ret (⟨some (headerOf (samplePreamble 0 1 0) [97] []), some PayloadStream.stored,
        none⟩, ⟨[1, 2, 3], some []⟩) ∧
    ZipStream.Next sliceRead ⟨[97, 1, 2, 3], some (lfhBytes ++ samplePreamble 0 1 0)⟩ =
      Outcome.panic (GoPanic.sliceBounds 31 30) ∧
    ZipStream.Next sliceRead
        ⟨[0, 97, 1, 2, 3], some (lfhBytes ++ (samplePreamble 0 1 0).take 25)⟩ =
      Outcome.panic (GoPanic.sliceBounds 31 29) ∧
    ZipStream.Next sliceRead
        ⟨[0, 0, 97, 1, 2, 3], some (lfhBytes ++ (samplePreamble 0 1 0).take 24)⟩ =
      Outcome.panic (GoPanic.sliceBounds 31 28) ∧
    ZipStream.Next sliceRead
        ⟨[0, 0, 0, 97, 1, 2, 3], some (lfhBytes ++ (samplePreamble 0 1 0).take 23)⟩ =
      Outcome.ret (⟨some (headerOf (samplePreamble 0 1 0) [97] []), some PayloadStream.stored,
        none⟩, ⟨[1, 2, 3], none⟩) := by
  refine ⟨?_, ?_, ?_, ?_, ?_⟩ <;> with_unfolding_all rfl

/-- C18 (failing input): a six-byte carry buffer read with a five-byte buffer: `Read`
returns the first byte and the new carry buffer holds bytes 2 to 5 twice.  And
a pull of three bytes panics on `p[len(p)-4:]`. -/
theorem Read_repeats_carry_bytes :
    ZipStream.Read sliceRead ⟨[7, 8], some [1, 2, 3, 4, 5, 6]⟩ 5 =
      Outcome.ret ⟨[1], none, ⟨[7, 8], some [2, 3, 4, 5, 2, 3, 4, 5, 6]⟩⟩ ∧
    ZipStream.Read sliceRead ⟨[1, 2, 3], none⟩ 64 =
      Outcome.panic (GoPanic.sliceBounds (-1) 3) := by
  constructor <;> rfl

/-- C19 (amended): when the carry buffer starts with the four bytes of the Central
Directory Header signature, `Next` returns `io.EOF` and leaves the reader and
the carry buffer as they were, so the first call and every later call to `Next`
return `io.EOF`, a nil header and a nil payload stream. -/
theorem Next_eof_repeats {σ : Type} (rd : σ → Nat → RdRes σ) (u : σ) (c : List UInt8)
    (hsig : c.take 4 = cdhBytes) (n : Nat) :
    nextAfter rd n ⟨u, some c⟩ = Outcome.ret (⟨none, none, some GoError.EOF⟩, ⟨u, some c⟩) := by
  have hlen : 4 ≤ c.length := by
    have h := congrArg List.length hsig
    rw [List.length_take] at h
    simp [cdhBytes] at h
    omega
  have hc : c ≠ [] := by
    intro h
    rw [h] at hlen
    simp at hlen
  have hread := surface_read_within_carry rd u c 4 hc hlen
  have hnext : ZipStream.Next rd ⟨u, some c⟩ =
      Outcome.ret (⟨none, none, some GoError.EOF⟩, ⟨u, some c⟩) := by
    rw [Next_of_directoryHeader rd ⟨u, some c⟩ (by rw [hread]; exact hsig)
      (by rw [hread]; exact Or.inl rfl), hread]
    rfl
  induction n with
  | zero => exact hnext
  | succ n ih =>
    unfold nextAfter
    rw [hnext]
    exact ih

/-- Witness for C19 (amended): six calls on a carry buffer that starts with the
signature. -/
theorem Next_eof_repeats_witness :
    nextAfter sliceRead 5 ⟨[0, 0], some (cdhBytes ++ [20, 0, 20, 0])⟩ =
      Outcome.ret (⟨none, none, some GoError.EOF⟩, ⟨[0, 0], some (cdhBytes ++ [20, 0, 20, 0])⟩) :=
  Next_eof_repeats sliceRead [0, 0] (cdhBytes ++ [20, 0, 20, 0]) (by rfl) 5

/-- C19 (counterexample): with an empty carry buffer the signature is read from the
stream itself: the first `Next` returns `io.EOF`, the second one reads the four
bytes that follow the signature and returns `invalid signature`. -/
theorem Next_after_eof_not_eof :
    ZipStream.Next sliceRead ⟨cdhBytes ++ [20, 0, 20, 0, 0, 0], none⟩ =
      Outcome.ret (⟨none, none, some GoError.EOF⟩, ⟨[20, 0, 20, 0, 0, 0], none⟩) ∧
    nextAfter sliceRead 1 ⟨cdhBytes ++ [20, 0, 20, 0, 0, 0], none⟩ =
      Outcome.ret (⟨none, none, some (GoError.invalidSignature 0x00140014)⟩, ⟨[0, 0], none⟩) := by
  constructor <;> rfl

/-- C20: for every reader, when the carry buffer is empty and the underlying read into
a 4-byte buffer returns 4 bytes, `Read` with a 4-byte buffer returns `(0, nil)`
and the carry buffer becomes those 4 bytes; a further `Read` with a 4-byte
buffer returns `(0, nil)` and leaves the carry buffer and the underlying reader
as they were; so a caller that reads with 4-byte buffers gets no byte and no
`io.EOF`, however many calls it makes. -/
theorem Read_four_byte_buffer_stalls {σ : Type} (rd : σ → Nat → RdRes σ) (z : ZipStream σ)
    (hp : lenPrevious z.previous = 0) (h4 : (rd z.Reader 4).data.length = 4) :
    z.Read rd 4 = Outcome.ret ⟨[], none, ⟨(rd z.Reader 4).next, some (rd z.Reader 4).data⟩⟩ ∧
    ZipStream.Read rd ⟨(rd z.Reader 4).next, some (rd z.Reader 4).data⟩ 4 =
      Outcome.ret ⟨[], none, ⟨(rd z.Reader 4).next, some (rd z.Reader 4).data⟩⟩ ∧
    ∀ fuel acc, readEntry rd 4 fuel ⟨(rd z.Reader 4).next, some (rd z.Reader 4).data⟩ acc =
      Drained.unfinished acc ⟨(rd z.Reader 4).next, some (rd z.Reader 4).data⟩ := by
  have hr := surface_read_no_carry rd z 4 hp
  generalize rd z.Reader 4 = r at hr h4
  have hd : r.data ≠ [] := by
    intro h
    rw [h] at h4
    simp at h4
  have hr2 := surface_read_within_carry rd r.next r.data 4 hd (by omega)
  have h1 : z.Read rd 4 = Outcome.ret ⟨[], none, ⟨r.next, some r.data⟩⟩ := by
    rw [Read_no_signature rd z 4 (by rw [hr, hp]; exact Nat.zero_le _)
      (by rw [hr]; show scan isBoundary r.data 0 (r.data.length - 4) = none; rw [h4]; rfl)
      (by rw [hr]; exact Nat.le_of_eq h4.symm), hr]
    dsimp only
    rw [h4]
    rfl
  have h2 : ZipStream.Read rd ⟨r.next, some r.data⟩ 4 =
      Outcome.ret ⟨[], none, ⟨r.next, some r.data⟩⟩ := by
    rw [Read_no_signature rd ⟨r.next, some r.data⟩ 4
      (by rw [hr2]; show r.data.length ≤ (r.data.take 4).length; rw [List.length_take]; omega)
      (by rw [hr2]; show scan isBoundary (r.data.take 4) 0 ((r.data.take 4).length - 4) = none
          rw [List.length_take, h4]; rfl)
      (by rw [hr2]; show 4 ≤ (r.data.take 4).length; rw [List.length_take]; omega), hr2]
    dsimp only
    rw [List.take_of_length_le (Nat.le_of_eq h4), h4]
    rfl
  refine ⟨h1, h2, ?_⟩
  intro fuel
  induction fuel with
  | zero => intro acc; rfl
  | succ k ih =>
    intro acc
    unfold readEntry
    rw [h2]
    dsimp only
    rw [List.append_nil]
    exact ih acc

/-- Witness for C20: an in-memory stream of eight bytes. -/
theorem Read_four_byte_buffer_stalls_witness :
    ZipStream.Read sliceRead ⟨[1, 2, 3, 4, 5, 6, 7, 8], none⟩ 4 =
      Outcome.ret ⟨[], none, ⟨[5, 6, 7, 8], some [1, 2, 3, 4]⟩⟩ ∧
    ZipStream.Read sliceRead ⟨[5, 6, 7, 8], some [1, 2, 3, 4]⟩ 4 =
      Outcome.ret ⟨[], none, ⟨[5, 6, 7, 8], some [1, 2, 3, 4]⟩⟩ ∧
    ∀ fuel acc, readEntry sliceRead 4 fuel ⟨[5, 6, 7, 8], some [1, 2, 3, 4]⟩ acc =
      Drained.unfinished acc ⟨[5, 6, 7, 8], some [1, 2, 3, 4]⟩ :=
  Read_four_byte_buffer_stalls sliceRead ⟨[1, 2, 3, 4, 5, 6, 7, 8], none⟩ (by rfl) (by rfl)

end Zipstream
